import Mathlib

/-!
Verification of the multi-object service binding and dispatch subsystem of
the `ghttp` server (`ghttp_server_service_multi_object.go`): dynamic handler
binding in three modes (whole-object, single-method, REST), per-type instance
pooling with lifecycle hooks, and failure isolation around user code.

Strings are modelled as `List Char` (the source operates on ASCII route
patterns and Go identifiers, where byte and character positions coincide).
Helpers of the repository that are not part of the given source file
(`gstr`, `gregex`, `gpool`, `niceCallFunc`, `mergeBuildInNameToPattern`,
`parsePattern`, `serveHandlerKey`, `methodsMap`) are modelled from the
specification and carry a doc comment saying so.
-/

set_option autoImplicit false

namespace GhttpMultiObject

abbrev Str := List Char

/-- ASCII lower-casing of a modelled string (Go `strings.ToLower` on ASCII). -/
def lower (s : Str) : Str := s.map Char.toLower

/-- ASCII upper-casing of a modelled string (Go `strings.ToUpper` on ASCII). -/
def upper (s : Str) : Str := s.map Char.toUpper

/-- Go `strings.EqualFold` restricted to ASCII: case-insensitive equality. -/
def equalFold (a b : Str) : Bool := lower a = lower b

/-- Whitespace recognized by Go `strings.TrimSpace` (ASCII subset). -/
def isSpaceChar (c : Char) : Bool := c = ' ' || c = '\t' || c = '\n' || c = '\r'

/-- Go `strings.TrimSpace` (ASCII subset). -/
def trimSpace (s : Str) : Str :=
  ((s.dropWhile isSpaceChar).reverse.dropWhile isSpaceChar).reverse

/-- `leadsWith n s` holds when the modelled string `s` starts with `n`. -/
def leadsWith : Str → Str → Bool
  | [], _ => true
  | _ :: _, [] => false
  | a :: as, b :: bs => a = b && leadsWith as bs

/-- Substring containment: `containsSub h n` holds when `n` occurs in `h`. -/
def containsSub (n : Str) : Str → Bool
  | [] => leadsWith n []
  | h :: rest => leadsWith n (h :: rest) || containsSub n rest

/-- Fuel-driven worker for `replaceSub` (Go `strings.Replace(h, n, r, -1)`):
replaces every non-overlapping occurrence of `n`, scanning left to right. -/
def replaceSubFuel (n r : Str) : Nat → Str → Str
  | 0, h => h
  | _ + 1, [] => []
  | fuel + 1, c :: rest =>
    if n ≠ [] && leadsWith n (c :: rest) then
      r ++ replaceSubFuel n r fuel ((c :: rest).drop n.length)
    else
      c :: replaceSubFuel n r fuel rest

/-- Go `strings.Replace(h, n, r, -1)`: replace all occurrences of `n` in `h`
by `r`, scanning left to right without overlap. -/
def replaceSub (h n r : Str) : Str := replaceSubFuel n r h.length h

/-- Go `strings.TrimRight(s, "/")`: drop all trailing slash characters. -/
def trimRightSlashes : Str → Str
  | [] => []
  | c :: rest =>
    let r := trimRightSlashes rest
    if r = [] && c = '/' then [] else c :: r

/-- Whether the needle `n` occurs (case-insensitively) in `h` at position `p`. -/
def occursAtCI (h n : Str) (p : Nat) : Bool := leadsWith (lower n) (lower (h.drop p))

/-- Worker for `posRI`: scan candidate positions downward from `q`. -/
def posRIAux (h n : Str) : Nat → Option Nat
  | 0 => if occursAtCI h n 0 then some 0 else none
  | p + 1 => if occursAtCI h n (p + 1) then some (p + 1) else posRIAux h n p

/-- `gstr.PosRI(h, n)`: position of the last case-insensitive occurrence of
`n` in `h` (`none` models Go's `-1`). -/
def posRI (h n : Str) : Option Nat := posRIAux h n h.length

/-- A word character of the `gregex` built-in-variable pattern `\{\.\w+\}`. -/
def wordChar (c : Char) : Bool := c.isAlpha || c.isDigit || c = '_'

/-- After `{.` and at least one word character: word characters then `}`. -/
def phClose : Str → Bool
  | [] => false
  | c :: rest => c = '}' || (wordChar c && phClose rest)

/-- After `{.`: at least one word character, then word characters up to `}`. -/
def phAfterDot : Str → Bool
  | [] => false
  | c :: rest => wordChar c && phClose rest

/-- Whether a built-in-variable placeholder `{.\w+}` starts at this position. -/
def phFrom : Str → Bool
  | '{' :: '.' :: rest => phAfterDot rest
  | _ => false

/-- `gregex.IsMatchString` for the pattern `\{\.\w+\}`: does the string
contain a built-in-variable placeholder anywhere? -/
def hasPlaceholder : Str → Bool
  | [] => false
  | c :: rest => phFrom (c :: rest) || hasPlaceholder rest

/-- Split at the first occurrence of a separator character: returns the part
before it and, when the separator occurs, the part after it. -/
def splitAtFirst (sep : Char) : Str → Str × Option Str
  | [] => ([], none)
  | c :: rest =>
    if c = sep then ([], some rest)
    else
      let (a, b) := splitAtFirst sep rest
      (c :: a, b)

/-! ## The Go data model of the bound service object -/

/-- The call signature of a discovered Go method: either exactly
`func(*ghttp.Request)` (the handler signature) or anything else. -/
inductive Sig where
  | handler
  | other
  deriving DecidableEq, Repr

/-- A method of the bound type: its name and its signature shape. -/
structure GoMethod where
  name : Str
  sig : Sig
  deriving DecidableEq, Repr

/-- The Go struct type of a bound service object: its (short) type name and
the method set visible on a pointer to it. The package path, used by the
source only inside diagnostic text, is not modelled. -/
structure StructType where
  name : Str
  methods : List GoMethod
  deriving DecidableEq, Repr

/-- A Go value passed as the `object` argument of the binding functions:
either a pointer `*T` to a heap cell (identified by its address) or a plain
struct value `T`. -/
inductive Object where
  | ptr (t : StructType) (addr : Nat)
  | structVal (t : StructType)
  deriving DecidableEq, Repr

/-- The struct type underlying an object. -/
def Object.typeOf : Object → StructType
  | .ptr t _ => t
  | .structVal t => t

/-- `reflect`: `t.Elem().Name()` for `t := reflect.ValueOf(object).Type()`.
`Elem` on a non-pointer (struct) kind panics in `reflect`, modelled by
`none`. -/
def typeElemName : Object → Option Str
  | .ptr t _ => some t.name
  | .structVal _ => none

/-- The local pointer-wrapping step of the binding functions
(`if v.Kind() == reflect.Struct { newValue := reflect.New(t); ... }`):
a struct value is boxed into a temporary pointer (fresh cell, address 0 is
irrelevant to registration, which only consults the type). -/
def wrapIfStruct : Object → Object
  | .structVal t => .ptr t 0
  | o => o

/-- `reflect`: `MethodByName(name)` on the object's (pointer) value, reduced
to the signature of the found method. `none` models an invalid
`reflect.Value` (method absent). -/
def findMethod (o : Object) (name : Str) : Option Sig :=
  (o.typeOf.methods.find? (fun m => m.name = name)).map (fun m => m.sig)

/-! ## Spec-modelled externals (helpers outside the given source file) -/

/-- The method name `Init` of the pre-call lifecycle hook. -/
def strInit : Str := ['I', 'n', 'i', 't']

/-- The method name `Shut` of the post-call lifecycle hook. -/
def strShut : Str := ['S', 'h', 'u', 't']

/-- The method name `Index`, subject to index aliasing. -/
def strIndex : Str := ['I', 'n', 'd', 'e', 'x']

/-- The needle `/index` stripped by index aliasing. -/
def strSlashIndex : Str := ['/', 'i', 'n', 'd', 'e', 'x']

/-- The built-in variable `\x7b.struct\x7d` of a route pattern. -/
def phStruct : Str := ['\x7b', '.', 's', 't', 'r', 'u', 'c', 't', '\x7d']

/-- The built-in variable `\x7b.method\x7d` of a route pattern. -/
def phMethod : Str := ['\x7b', '.', 'm', 'e', 't', 'h', 'o', 'd', '\x7d']

/-- Modelled from the spec: the case-normalization applied to type and method
names when they are merged into a route path (§4.2 "append ...,
case-normalized"; `Server.nameToUri` is not part of the given source). -/
def nameToUri (s : Str) : Str := lower s

/-- Modelled from the spec: `mergeBuildInNameToPattern` (not part of the
given source). Per §4.2 it merges the names into the pattern's path
component, "respecting any existing built-in-name placeholders already
present in the pattern": the `\x7b.struct\x7d` placeholder is replaced by the
type name; when a `\x7b.method\x7d` placeholder is present it is replaced by
the method name and nothing is appended; otherwise, when appending is
allowed, the case-normalized method name is appended as a final path segment
(§8: binding `Foo` at `/test` yields `/test/foo`), keeping a trailing
`@domain` part at the end. -/
def mergeBuildInNameToPattern (pat structName methodName : Str) (allowAppend : Bool) : Str :=
  let sName := nameToUri structName
  let mName := nameToUri methodName
  let pat1 := replaceSub pat phStruct sName
  if containsSub phMethod pat1 then replaceSub pat1 phMethod mName
  else if !allowAppend then pat1
  else
    let (uri, dom) := splitAtFirst '@' pat1
    let uri2 := trimRightSlashes uri ++ '/' :: mName
    match dom with
    | none => uri2
    | some d => uri2 ++ '@' :: d

/-- Modelled from the spec: the wildcard HTTP-method name of a route key
("HTTP method (or wildcard)" in §3; the server constant `defaultMethod`). -/
def defaultMethod : Str := ['A', 'L', 'L']

/-- Modelled from the spec: `parsePattern` (not part of the given source)
splits a route pattern `method:path@domain` into (domain, method, path); a
pattern without a method prefix gets the wildcard method, one without a
domain part gets the empty domain. An empty pattern is malformed (§4.2:
pattern-parse failure aborts the binding call as fatal). -/
def parsePattern (p : Str) : Option (Str × Str × Str) :=
  if p = [] then none
  else
    let (rest, dom) := splitAtFirst '@' p
    let domain := dom.getD []
    let (a, b) := splitAtFirst ':' rest
    match b with
    | some path => some (domain, a, path)
    | none => some (domain, defaultMethod, rest)

/-- Modelled from the spec: `serveHandlerKey` (not part of the given source)
reassembles a route key from method, path and domain; with an empty method
the key is just the path, followed by `@domain` when a domain is present. -/
def serveHandlerKey (method path domain : Str) : Str :=
  let d := if domain = [] then [] else '@' :: domain
  if method = [] then path ++ d else upper method ++ ':' :: path ++ d

/-- Modelled from the spec: `methodsMap`, the recognized HTTP verb names
(upper-case): "GET, POST, PUT, DELETE, PATCH, …" (§4.2). -/
def httpVerbs : List Str :=
  [['G', 'E', 'T'], ['P', 'U', 'T'], ['P', 'O', 'S', 'T'],
   ['D', 'E', 'L', 'E', 'T', 'E'], ['P', 'A', 'T', 'C', 'H'],
   ['H', 'E', 'A', 'D'], ['C', 'O', 'N', 'N', 'E', 'C', 'T'],
   ['O', 'P', 'T', 'I', 'O', 'N', 'S'], ['T', 'R', 'A', 'C', 'E']]

/-! ## Registration: the three binding functions -/

/-- Severity of a diagnostic emitted during registration: `Logger().Fatal`,
`Logger().Errorf` or `Logger().Debugf`. -/
inductive DiagLevel where
  | fatal
  | error
  | debug
  deriving DecidableEq, Repr

/-- A diagnostic emitted during registration, reduced to its severity and the
method name it concerns (the full diagnostic text is not modelled). -/
structure Diag where
  level : DiagLevel
  method : Str
  deriving DecidableEq, Repr

/-- The dispatch closure returned by `callMultiObjectMethods`: it captures
the struct name (computed eagerly from `t.Elem().Name()`), the original
`object` argument and the method name. Its request-time behavior is
modelled by `dispatchClosure` below. -/
structure DispatchFn where
  structName : Str
  object : Object
  methodName : Str
  deriving DecidableEq, Repr

/-- `callMultiObjectMethods` evaluated at registration time: it computes
`structName := t.Elem().Name()` on the unwrapped `object` before returning
the closure, so it panics (`none`) when `object` is not a pointer. The
closure is identified by what it captures. -/
def callMultiObjectMethods (object : Object) (methodName : Str) : Option DispatchFn :=
  (typeElemName object).map (fun sn => ⟨sn, object, methodName⟩)

/-- Accumulator of the method-enumeration loops of `doBindMultiObject` and
`doBindMultiObjectRest`: route bindings and diagnostics collected so far,
plus whether a Go panic has unwound the call (after which nothing further
runs). Route bindings are kept in insertion order; the Go map semantics is
last-binding-wins. `handlerItem`'s pass-through fields (`itemName`,
`middleware`, `source`) are diagnostic or threaded unchanged and are not
modelled; an item is identified by its `itemFunc` closure. -/
structure LoopSt where
  routes : List (Str × DispatchFn)
  diags : List Diag
  panicked : Bool
  deriving DecidableEq, Repr

/-- The severity of a signature-mismatch diagnostic in `doBindMultiObject`
(source lines 197–207): `Logger().Errorf` when a non-empty method filter was
supplied (`len(methodMap) > 0`), `Logger().Debugf` otherwise. -/
def mismatchLevel (methodMap : Option (List Str)) : DiagLevel :=
  match methodMap with
  | some l => if l.length > 0 then DiagLevel.error else DiagLevel.debug
  | none => DiagLevel.debug

/-- One iteration of the method loop of `doBindMultiObject` (source lines
183–243): filter by the optional method map, skip `Init`/`Shut`, check the
handler signature (on mismatch: error-level diagnostic when a method filter
was supplied, debug-level otherwise, then continue), register the merged
key, and for a method case-insensitively named `Index` with no built-in
placeholder in the pattern additionally register the key with its last
case-insensitive `/index` occurrence removed (prepending `/` when the
result is empty or starts with `@`). -/
def multiObjectStep (pat structName : Str) (methodMap : Option (List Str))
    (object : Object) (st : LoopSt) (meth : GoMethod) : LoopSt :=
  if st.panicked then st
  else if (match methodMap with | some l => decide (meth.name ∉ l) | none => false) then st
  else if meth.name = strInit ∨ meth.name = strShut then st
  else if meth.sig ≠ Sig.handler then
    { st with diags := st.diags ++ [⟨mismatchLevel methodMap, meth.name⟩] }
  else
    match callMultiObjectMethods object meth.name with
    | none => { st with panicked := true }
    | some fn =>
      let key := mergeBuildInNameToPattern pat structName meth.name true
      let st1 := { st with routes := st.routes ++ [(key, fn)] }
      if equalFold meth.name strIndex ∧ ¬hasPlaceholder pat then
        match posRI key strSlashIndex with
        | none => { st1 with panicked := true }
        | some p =>
          let k := key.take p ++ key.drop (p + 6)
          let k2 := if k = [] ∨ k.headD 'x' = '@' then '/' :: k else k
          { st1 with routes := st1.routes ++ [(k2, fn)] }
      else st1

/-- Outcome of one binding call: the route bindings handed to
`bindHandlerByMap` (empty when the call was aborted by `Logger().Fatal` or
unwound by a panic), the diagnostics emitted, and which abort happened. -/
structure BindOutcome where
  routes : List (Str × DispatchFn)
  diags : List Diag
  fatal : Bool
  panicked : Bool
  deriving DecidableEq, Repr

/-- The method filter of `doBindMultiObject` (source lines 141–148): when a
non-empty filter string is given it is split at commas and each entry is
trimmed; otherwise there is no filter (`methodMap` stays nil). -/
def methodMapOf (method : Str) : Option (List Str) :=
  if method.length > 0 then some ((method.splitOn ',').map trimSpace) else none

/-- `doBindMultiObject` (source lines 137–246): split the comma-separated
method filter, parse the pattern (fatal on failure), rewrite the pattern
when its method part is the wildcard, wrap a non-pointer object into a
temporary pointer for the local enumeration only, and run the method loop
(which hands the original unwrapped `object` to `callMultiObjectMethods`). -/
def doBindMultiObject (pattern : Str) (object : Object) (method : Str) : BindOutcome :=
  let methodMap : Option (List Str) := methodMapOf method
  match parsePattern pattern with
  | none => ⟨[], [⟨DiagLevel.fatal, []⟩], true, false⟩
  | some (domain, meth, path) =>
    let pat := if equalFold meth defaultMethod then serveHandlerKey [] path domain else pattern
    let v := wrapIfStruct object
    let structName := v.typeOf.name
    let st := v.typeOf.methods.foldl (multiObjectStep pat structName methodMap object) ⟨[], [], false⟩
    if st.panicked then ⟨[], st.diags, false, true⟩ else ⟨st.routes, st.diags, false, false⟩

/-- `doBindMultiObjectMethod` (source lines 248–308): resolve the one named
method on the locally wrapped object; `Logger().Fatal` when it is absent,
error-level diagnostic (and no registration) when its signature is not the
handler signature; otherwise register the merged key with the dispatch
closure over the original unwrapped `object`. -/
def doBindMultiObjectMethod (pattern : Str) (object : Object) (method : Str) : BindOutcome :=
  let v := wrapIfStruct object
  let structName := v.typeOf.name
  let methodName := trimSpace method
  match findMethod v methodName with
  | none => ⟨[], [⟨DiagLevel.fatal, methodName⟩], true, false⟩
  | some sig =>
    if sig ≠ Sig.handler then ⟨[], [⟨DiagLevel.error, methodName⟩], false, false⟩
    else
      match callMultiObjectMethods object methodName with
      | none => ⟨[], [], false, true⟩
      | some fn =>
        let key := mergeBuildInNameToPattern pattern structName methodName false
        ⟨[(key, fn)], [], false, false⟩

/-- One iteration of the method loop of `doBindMultiObjectRest` (source
lines 337–368): skip any method whose upper-cased name is not a recognized
HTTP verb (silently, no diagnostic); emit an error-level diagnostic on a
signature mismatch; otherwise register under the key built from
`methodName + ":" + pattern` without appending the method to the path. -/
def restStep (pat structName : Str) (object : Object) (st : LoopSt) (meth : GoMethod) : LoopSt :=
  if st.panicked then st
  else if upper meth.name ∉ httpVerbs then st
  else if meth.sig ≠ Sig.handler then
    { st with diags := st.diags ++ [⟨DiagLevel.error, meth.name⟩] }
  else
    match callMultiObjectMethods object meth.name with
    | none => { st with panicked := true }
    | some fn =>
      let key := mergeBuildInNameToPattern (meth.name ++ ':' :: pat) structName meth.name false
      { st with routes := st.routes ++ [(key, fn)] }

/-- `doBindMultiObjectRest` (source lines 310–369): wrap a non-pointer
object locally and run the REST method loop over its method set. -/
def doBindMultiObjectRest (pattern : Str) (object : Object) : BindOutcome :=
  let v := wrapIfStruct object
  let structName := v.typeOf.name
  let st := v.typeOf.methods.foldl (restStep pattern structName object) ⟨[], [], false⟩
  if st.panicked then ⟨[], st.diags, false, true⟩ else ⟨st.routes, st.diags, false, false⟩

/-- `Server.BindMultiObject` (source lines 44–50): the optional variadic
method filter collapses to its first element or the empty string. -/
def BindMultiObject (pattern : Str) (object : Object) (method : List Str) : BindOutcome :=
  doBindMultiObject pattern object (method.headD [])

/-- `Server.BindMultiObjectMethod` (source lines 58–60). -/
def BindMultiObjectMethod (pattern : Str) (object : Object) (method : Str) : BindOutcome :=
  doBindMultiObjectMethod pattern object method

/-- `Server.BindMultiObjectRest` (source lines 64–66). -/
def BindMultiObjectRest (pattern : Str) (object : Object) : BindOutcome :=
  doBindMultiObjectRest pattern object

/-! ## The instance pool and the dispatch closure -/

/-- A pooled entry (`serviceMultiObjectInfo`, source lines 25–31): the owned
instance value (`o.rVal.Elem()`, the copy of the prototype value), the
lazily grown method cache (modelled by the set of names cached so far), and
whether the `Init`/`Shut` lifecycle hooks were installed. -/
structure PooledEntry where
  rVal : Object
  methodCache : List Str
  initHook : Bool
  shutHook : Bool
  deriving DecidableEq, Repr

/-- `o.rVal = reflect.New(t); ov := o.rVal.Elem(); ov.Set(v)` (source lines
86–88): the new owned instance receives a value copy of the prototype
value `v`. A Go value copy of a pointer copies the pointer (the address),
not the pointee: the copy aliases the same underlying struct cell. -/
def cloneValue : Object → Object
  | .ptr t a => .ptr t a
  | .structVal t => .structVal t

/-- The panic message class of a failed unchecked interface assertion. -/
def panicMsgInterface : Str :=
  ['i', 'n', 't', 'e', 'r', 'f', 'a', 'c', 'e', ' ',
   'c', 'o', 'n', 'v', 'e', 'r', 's', 'i', 'o', 'n']

/-- Hook installation in the pool factory (source lines 91–96):
`ov.MethodByName(name).IsValid()` checks only that a method of that name
exists; the subsequent `.Interface().(func(*Request))` is an unchecked
assertion that panics when the method's signature is not the handler
signature. -/
def hookOf (ov : Object) (name : Str) : Except Str Bool :=
  match findMethod ov name with
  | none => .ok false
  | some Sig.handler => .ok true
  | some Sig.other => .error panicMsgInterface

/-- The pool factory (source lines 81–98): build a new
`serviceMultiObjectInfo` whose instance is a value copy of the prototype,
install the `Init`/`Shut` hooks through unchecked assertions (a present
hook method with a non-handler signature panics), and initialize an empty
method cache. -/
def poolFactory (object : Object) : Except Str PooledEntry :=
  let ov := cloneValue object
  match hookOf ov strInit with
  | .error e => .error e
  | .ok ih =>
    match hookOf ov strShut with
    | .error e => .error e
    | .ok sh => .ok ⟨ov, [], ih, sh⟩

/-- A heap assigning to each allocated struct cell its contents, abstracted
to one word of per-request scratch state. -/
def Heap := Nat → Nat

/-- Reading the instance state reachable from an object value (through the
pointer for a pointer value; a plain struct value carries its own state,
not modelled by the heap). -/
def readInstance (h : Heap) : Object → Option Nat
  | .ptr _ a => some (h a)
  | .structVal _ => none

/-- Writing the instance state reachable from an object value. -/
def writeInstance (h : Heap) : Object → Nat → Heap
  | .ptr _ a, v => fun x => if x = a then v else h x
  | .structVal _, _ => h

/-- The observable steps of one invocation of the dispatch closure. -/
inductive Event where
  | borrow
  | initCall
  | methodCall
  | shutCall
  | put
  deriving DecidableEq, Repr

/-- Whether the user code of each phase panics when invoked on the current
request. -/
structure Behavior where
  initPanics : Bool
  methodPanics : Bool
  shutPanics : Bool
  deriving DecidableEq, Repr

/-- Modelled from the spec: `niceCallFunc` (not part of the given source) is
the failure boundary of §4.5. It invokes the call; an abnormal termination
(panic) raised by the user code is intercepted, surfaced as a server-side
error response plus a diagnostic log entry, and does not propagate to the
caller. The model returns whether a fault was intercepted. -/
def niceCallFunc (panics : Bool) : Bool := panics

/-- The `Shut` phase events of one dispatch (source lines 127–131). -/
def shutEvsOf (e : PooledEntry) : List Event :=
  if e.shutHook then [Event.shutCall] else []

/-- The faults intercepted in the `Shut` phase of one dispatch. -/
def shutFaultsOf (e : PooledEntry) (b : Behavior) : Nat :=
  if e.shutHook && niceCallFunc b.shutPanics then 1 else 0

/-- The three guarded phases of the dispatch closure run on a borrowed
entry (source lines 105–131): the `Init` hook under `niceCallFunc`; then
target-method resolution — a cached method is invoked under `niceCallFunc`;
otherwise `ov.MethodByName(methodName).Interface()` (a panic escaping the
wrapper when the method is absent, since this lookup is outside
`niceCallFunc`) with a checked assertion that silently skips a non-handler
match and caches-then-invokes a handler match; then the `Shut` hook under
`niceCallFunc`. Returns the events, the number of intercepted faults, and
the updated entry (`none` when a panic escaped). -/
def runPhases (e : PooledEntry) (methodName : Str) (b : Behavior) :
    List Event × Nat × Option PooledEntry :=
  let initEvs : List Event := if e.initHook then [Event.initCall] else []
  let initFaults : Nat := if e.initHook && niceCallFunc b.initPanics then 1 else 0
  if methodName ∈ e.methodCache then
    let mFaults : Nat := if niceCallFunc b.methodPanics then 1 else 0
    (initEvs ++ [Event.methodCall] ++ shutEvsOf e,
     initFaults + mFaults + shutFaultsOf e b, some e)
  else
    match findMethod e.rVal methodName with
    | none => (initEvs, initFaults, none)
    | some Sig.other =>
      (initEvs ++ shutEvsOf e, initFaults + shutFaultsOf e b, some e)
    | some Sig.handler =>
      let mFaults : Nat := if niceCallFunc b.methodPanics then 1 else 0
      let e2 := { e with methodCache := e.methodCache ++ [methodName] }
      (initEvs ++ [Event.methodCall] ++ shutEvsOf e,
       initFaults + mFaults + shutFaultsOf e b, some e2)

/-- A `gpool.Pool` of one handler type: the prototype object captured by the
factory closure that created the pool, and the idle entries (`Get` takes
the front, `Put` appends at the back). The idle-timeout eviction of `gpool`
is an external concern and is not modelled. -/
structure PoolSt where
  factoryObject : Object
  idle : List PooledEntry
  deriving DecidableEq, Repr

/-- The process-wide `serviceMultiObjectCache` (type name → pool, source
line 21): a plain Go map, modelled as an association list for the
sequential semantics. The source provides no synchronization for it; its
behavior under concurrent access is modelled separately by `regThreadStep`. -/
abbrev Registry := List (Str × PoolSt)

/-- Plain map read `serviceMultiObjectCache[structName]`. -/
def regFind (reg : Registry) (name : Str) : Option PoolSt :=
  (reg.find? (fun p => p.1 = name)).map (fun p => p.2)

/-- Plain map write `serviceMultiObjectCache[structName] = pool`. -/
def regSet (reg : Registry) (name : Str) (p : PoolSt) : Registry :=
  if (reg.find? (fun q => q.1 = name)).isSome then
    reg.map (fun q => if q.1 = name then (name, p) else q)
  else
    reg ++ [(name, p)]

/-- Outcome of one invocation of the dispatch closure: the observable
events, the number of intercepted user-code faults (each surfaced as a
server-side error by the failure boundary), whether a panic escaped the
wrapper, and the registry afterwards. -/
structure DispatchOutcome where
  events : List Event
  faults : Nat
  escaped : Bool
  registry : Registry

/-- The request-time body of the closure returned by
`callMultiObjectMethods` (source lines 77–134): look up — or lazily create
and insert — the pool for the captured struct name, borrow an entry from it
(running the factory when no idle entry exists; a factory panic escapes the
wrapper, since `pool.Get()` is outside `niceCallFunc`), run the three
guarded phases, and return the entry to the pool. When a panic escapes
mid-dispatch, `pool.Put` never runs and the borrowed entry is not
returned. -/
def dispatchClosure (fn : DispatchFn) (b : Behavior) (reg : Registry) : DispatchOutcome :=
  let (pool, reg1) :=
    match regFind reg fn.structName with
    | some p => (p, reg)
    | none =>
      let p : PoolSt := ⟨fn.object, []⟩
      (p, regSet reg fn.structName p)
  let got : Except Str (PooledEntry × List PooledEntry) :=
    match pool.idle with
    | e :: rest => .ok (e, rest)
    | [] => (poolFactory pool.factoryObject).map (fun e => (e, []))
  match got with
  | .error _ => ⟨[], 0, true, reg1⟩
  | .ok (e, rest) =>
    let (evs, faults, e2?) := runPhases e fn.methodName b
    match e2? with
    | none =>
      ⟨[Event.borrow] ++ evs, faults, true,
       regSet reg1 fn.structName ⟨pool.factoryObject, rest⟩⟩
    | some e2 =>
      ⟨[Event.borrow] ++ evs ++ [Event.put], faults, false,
       regSet reg1 fn.structName ⟨pool.factoryObject, rest ++ [e2]⟩⟩

/-! ## The registry under concurrent first use -/

/-- One request's interaction with the unsynchronized registry map, split
into its two atomic machine steps as the source performs them: the map read
`pool, ok := serviceMultiObjectCache[structName]` (source line 79), and —
only when that read missed — the pool construction and map write
`serviceMultiObjectCache[structName] = pool` (source lines 81–99). `pc` is
the thread's position in this straight-line code, `sawMiss` its local `ok`
result, `created` whether it constructed a pool of its own. No lock or
atomic compare-and-insert guards the two steps in the source. -/
structure RegThread where
  pc : Nat
  sawMiss : Bool
  created : Bool
  deriving DecidableEq, Repr

/-- Execute the current atomic step of one thread against the shared map,
abstracted to the entry under the one struct name in play (`none`: absent);
pools are identified by the id of the creating thread. -/
def regThreadStep (tid : Nat) (reg : Option Nat) (t : RegThread) : Option Nat × RegThread :=
  match t.pc with
  | 0 => (reg, { t with pc := 1, sawMiss := reg.isNone })
  | 1 =>
    if t.sawMiss then (some tid, { t with pc := 2, created := true })
    else (reg, { t with pc := 2 })
  | _ => (reg, t)

/-- Two concurrent requests (threads 1 and 2) racing on first use of the
same handler type. -/
structure RaceState where
  reg : Option Nat
  t1 : RegThread
  t2 : RegThread
  deriving DecidableEq, Repr

/-- Run one atomic step of the chosen thread (`true`: thread 1). -/
def raceStep (s : RaceState) (chooseFirst : Bool) : RaceState :=
  if chooseFirst then
    let (r, t) := regThreadStep 1 s.reg s.t1
    ⟨r, t, s.t2⟩
  else
    let (r, t) := regThreadStep 2 s.reg s.t2
    ⟨r, s.t1, t⟩

/-- Run an interleaving schedule of the two threads. -/
def runSchedule (sched : List Bool) (s : RaceState) : RaceState :=
  sched.foldl raceStep s

/-- Both threads about to perform their registry read, registry empty. -/
def initialRaceState : RaceState := ⟨none, ⟨0, false, false⟩, ⟨0, false, false⟩⟩

/-! ## Concrete fixtures used in the verification theorems -/

/-- A conforming handler method name. -/
def helloName : Str := ['H', 'e', 'l', 'l', 'o']

/-- A pointer-bound service type with one conforming method. -/
def c1Type : StructType := ⟨['U', 's', 'e', 'r'], [⟨helloName, Sig.handler⟩]⟩

/-- A pointer object of `c1Type` whose pointee lives at address 7. -/
def c1Obj : Object := Object.ptr c1Type 7

/-- A type whose `Init` method has a non-handler signature. -/
def c8BadInit : StructType :=
  ⟨['T'], [⟨strInit, Sig.other⟩, ⟨['F', 'o', 'o'], Sig.handler⟩]⟩

/-- A type whose `Init` method has the handler signature and `Shut` is absent. -/
def c8Safe : StructType :=
  ⟨['T'], [⟨strInit, Sig.handler⟩, ⟨['F', 'o', 'o'], Sig.handler⟩]⟩

/-- A conforming method name used in registration fixtures. -/
def goodName : Str := ['G', 'o', 'o', 'd']

/-- A non-conforming method name used in registration fixtures. -/
def badName : Str := ['B', 'a', 'd']

/-- A type with one conforming and one non-conforming method. -/
def c3Type : StructType := ⟨['S', 'v', 'c'], [⟨goodName, Sig.handler⟩, ⟨badName, Sig.other⟩]⟩

/-- A pointer object of `c3Type`. -/
def c3Obj : Object := Object.ptr c3Type 4

/-- A type with one conforming and one non-conforming method. -/
def c4Type : StructType := ⟨['S', 'v', 'c'], [⟨goodName, Sig.handler⟩, ⟨badName, Sig.other⟩]⟩

/-- A pointer object of `c4Type`. -/
def c4Obj : Object := Object.ptr c4Type 4

/-- A type exposing a conforming `Index` method. -/
def c5Type : StructType := ⟨['U', 's', 'e', 'r'], [⟨strIndex, Sig.handler⟩]⟩

/-- A REST fixture: verb-named `Get`/`Post` (conforming), non-verb `Foo`
(conforming), verb-named `Put` with a non-handler signature. -/
def c6Type : StructType :=
  ⟨['O', 'r', 'd', 'e', 'r'],
   [⟨['G', 'e', 't'], Sig.handler⟩, ⟨['P', 'o', 's', 't'], Sig.handler⟩,
    ⟨['F', 'o', 'o'], Sig.handler⟩, ⟨['P', 'u', 't'], Sig.other⟩]⟩

/-- A type with a handler-signature `Init` hook and a handler method. -/
def c2Type : StructType := ⟨['S', 'v', 'c'], [⟨strInit, Sig.handler⟩, ⟨helloName, Sig.handler⟩]⟩

/-- A pointer object of `c2Type`. -/
def c2Obj : Object := Object.ptr c2Type 9

/-- An idle pooled entry of `c2Obj` with both hooks installed. -/
def c7Entry : PooledEntry := ⟨c2Obj, [], true, true⟩

/-- A registry holding one pool for `c2Type` with one idle entry. -/
def c7Reg : Registry := [(c2Type.name, ⟨c2Obj, [c7Entry]⟩)]

/-- A type whose only method is a conforming verb-named `Get`. -/
def c10Type : StructType := ⟨['W'], [⟨['G', 'e', 't'], Sig.handler⟩]⟩

/-! ## Lemmas about the string operations -/

theorem leadsWith_refl (l : Str) : leadsWith l l = true := by
  induction l with
  | nil => rfl
  | cons c cs ih => simp [leadsWith, ih]

theorem leadsWith_self_append (n t : Str) : leadsWith n (n ++ t) = true := by
  induction n with
  | nil => rfl
  | cons c cs ih => simp [leadsWith, ih]

theorem leadsWith_length {n s : Str} (h : leadsWith n s = true) : n.length ≤ s.length := by
  induction n generalizing s with
  | nil => simp
  | cons c cs ih =>
    cases s with
    | nil => simp [leadsWith] at h
    | cons b bs =>
      simp only [leadsWith, Bool.and_eq_true] at h
      have := ih h.2
      simp only [List.length_cons]
      omega

theorem leadsWith_iff {n s : Str} : leadsWith n s = true ↔ ∃ t, s = n ++ t := by
  induction n generalizing s with
  | nil => simp [leadsWith]
  | cons c cs ih =>
    cases s with
    | nil =>
      simp [leadsWith]
    | cons b bs =>
      simp only [leadsWith, Bool.and_eq_true, decide_eq_true_eq, ih, List.cons_append,
        List.cons.injEq]
      constructor
      · rintro ⟨rfl, t, rfl⟩
        exact ⟨t, rfl, rfl⟩
      · rintro ⟨t, rfl, rfl⟩
        exact ⟨rfl, t, rfl⟩

theorem lower_length (s : Str) : (lower s).length = s.length := List.length_map s Char.toLower

theorem lower_append (a b : Str) : lower (a ++ b) = lower a ++ lower b := List.map_append _ a b

theorem occursAtCI_bound {h n : Str} {j : Nat} (ho : occursAtCI h n j = true) :
    n.length ≤ h.length - j := by
  unfold occursAtCI at ho
  have hl := leadsWith_length ho
  simpa [lower_length] using hl

theorem occursAtCI_false_of_lt {h n : Str} {j : Nat} (hn : n ≠ [])
    (hj : h.length < j + n.length) : occursAtCI h n j = false := by
  cases ho : occursAtCI h n j with
  | false => rfl
  | true =>
    have hb := occursAtCI_bound ho
    have hpos : 0 < n.length := List.length_pos.mpr hn
    omega

theorem occursAtCI_mid (pre mid t : Str) : occursAtCI (pre ++ (mid ++ t)) mid pre.length = true := by
  unfold occursAtCI
  rw [List.drop_left, lower_append]
  exact leadsWith_self_append _ _

theorem posRIAux_exact (h n : Str) (p : Nat) :
    ∀ k, occursAtCI h n p = true →
      (∀ j, p < j → j ≤ p + k → occursAtCI h n j = false) →
      posRIAux h n (p + k) = some p := by
  intro k
  induction k with
  | zero =>
    intro hp _
    cases p with
    | zero => simp [posRIAux, hp]
    | succ q => simp [posRIAux, hp]
  | succ k ih =>
    intro hp hnone
    have hfalse : occursAtCI h n (p + k + 1) = false := hnone _ (by omega) (by omega)
    have hsum : p + (k + 1) = (p + k) + 1 := by omega
    rw [hsum]
    simp only [posRIAux, hfalse, Bool.false_eq_true, if_false]
    exact ih hp (fun j h1 h2 => hnone j h1 (by omega))

theorem posRI_trailing (pre n : Str) (hn : n ≠ []) :
    posRI (pre ++ n) n = some pre.length := by
  unfold posRI
  have hlen : (pre ++ n).length = pre.length + n.length := List.length_append pre n
  have hocc : occursAtCI (pre ++ n) n pre.length = true := by
    have := occursAtCI_mid pre n []
    simpa using this
  rw [hlen]
  exact posRIAux_exact _ _ _ n.length hocc
    (fun j h1 h2 => occursAtCI_false_of_lt hn (by rw [hlen]; omega))

theorem posRIAux_isSome (h n : Str) (p : Nat) :
    ∀ q, p ≤ q → occursAtCI h n p = true → (posRIAux h n q).isSome = true := by
  intro q
  induction q with
  | zero =>
    intro hpq hp
    have hz : p = 0 := by omega
    subst hz
    simp [posRIAux, hp]
  | succ q ih =>
    intro hpq hp
    by_cases hq : occursAtCI h n (q + 1) = true
    · simp [posRIAux, hq]
    · have hqf : occursAtCI h n (q + 1) = false := by
        cases hx : occursAtCI h n (q + 1) with
        | true => exact absurd hx hq
        | false => rfl
      have hpq2 : p ≤ q := by
        rcases Nat.lt_or_ge p (q + 1) with h1 | h1
        · omega
        · exfalso
          have he : p = q + 1 := by omega
          rw [he] at hp
          exact hq hp
      simp only [posRIAux, hqf, Bool.false_eq_true, if_false]
      exact ih hpq2 hp

theorem posRI_isSome {h n : Str} {p : Nat} (hn : n ≠ []) (hp : occursAtCI h n p = true) :
    (posRI h n).isSome = true := by
  have hb := occursAtCI_bound hp
  have hpos : 0 < n.length := List.length_pos.mpr hn
  have hple : p ≤ h.length := by omega
  exact posRIAux_isSome h n p h.length hple hp

theorem containsSub_false_elim {n : Str} {c : Char} {rest : Str}
    (h : containsSub n (c :: rest) = false) :
    leadsWith n (c :: rest) = false ∧ containsSub n rest = false := by
  rw [containsSub] at h
  simpa [Bool.or_eq_false_iff] using h

theorem replaceSubFuel_id (n r : Str) :
    ∀ (f : Nat) (h : Str), containsSub n h = false → replaceSubFuel n r f h = h := by
  intro f
  induction f with
  | zero => intro h _; rfl
  | succ f ih =>
    intro h hc
    cases h with
    | nil => rfl
    | cons c rest =>
      obtain ⟨h1, h2⟩ := containsSub_false_elim hc
      simp [replaceSubFuel, h1, ih rest h2]

theorem replaceSub_id {h n : Str} (r : Str) (hc : containsSub n h = false) :
    replaceSub h n r = h :=
  replaceSubFuel_id n r h.length h hc

theorem containsSub_right_of_head_notin {c : Char} {cs xs ys : Str}
    (h : containsSub (c :: cs) (xs ++ ys) = true) (hc : c ∉ xs) :
    containsSub (c :: cs) ys = true := by
  induction xs with
  | nil => simpa using h
  | cons x xs ih =>
    rw [List.cons_append, containsSub] at h
    rcases Bool.or_eq_true_iff.mp h with h1 | h1
    · exfalso
      cases ys with
      | nil =>
        simp only [List.append_nil] at h1
        simp only [leadsWith, Bool.and_eq_true, decide_eq_true_eq] at h1
        exact hc (h1.1 ▸ List.mem_cons_self x xs)
      | cons d ds =>
        simp only [leadsWith, Bool.and_eq_true, decide_eq_true_eq] at h1
        exact hc (h1.1 ▸ List.mem_cons_self x xs)
    · exact ih h1 (fun hm => hc (List.mem_cons_of_mem x hm))

theorem phClose_brace (t : Str) : phClose ('\x7d' :: t) = true := by
  simp [phClose]

theorem phClose_words (w t : Str) (hw : ∀ c ∈ w, wordChar c = true) :
    phClose (w ++ '\x7d' :: t) = true := by
  induction w with
  | nil => exact phClose_brace t
  | cons c cs ih =>
    rw [List.cons_append, phClose]
    have hc := hw c (List.mem_cons_self c cs)
    have hcs := ih (fun d hd => hw d (List.mem_cons_of_mem c hd))
    simp [hc, hcs]

theorem phFrom_shape (w t : Str) (hw0 : w ≠ []) (hw : ∀ c ∈ w, wordChar c = true) :
    phFrom ('\x7b' :: '.' :: (w ++ '\x7d' :: t)) = true := by
  cases w with
  | nil => exact absurd rfl hw0
  | cons c cs =>
    rw [List.cons_append]
    show phAfterDot (c :: (cs ++ '\x7d' :: t)) = true
    rw [phAfterDot]
    have hc := hw c (List.mem_cons_self c cs)
    have hcs := phClose_words cs t (fun d hd => hw d (List.mem_cons_of_mem c hd))
    simp [hc, hcs]

theorem hasPlaceholder_cons (c : Char) (rest : Str) :
    hasPlaceholder (c :: rest) = (phFrom (c :: rest) || hasPlaceholder rest) := rfl

theorem containsSub_placeholder {n s : Str} (hn : n = phStruct ∨ n = phMethod)
    (h : containsSub n s = true) : hasPlaceholder s = true := by
  induction s with
  | nil =>
    exfalso
    rcases hn with rfl | rfl <;> simp [containsSub, leadsWith] at h
  | cons c rest ih =>
    rw [containsSub] at h
    rcases Bool.or_eq_true_iff.mp h with h1 | h1
    · obtain ⟨t, ht⟩ := leadsWith_iff.mp h1
      rw [ht]
      rcases hn with rfl | rfl
      · have he : phStruct ++ t
            = '\x7b' :: '.' :: (['s', 't', 'r', 'u', 'c', 't'] ++ '\x7d' :: t) := by
          simp [phStruct]
        have hf := phFrom_shape ['s', 't', 'r', 'u', 'c', 't'] t (by simp) (by decide)
        rw [he, hasPlaceholder_cons, hf]
        simp
      · have he : phMethod ++ t
            = '\x7b' :: '.' :: (['m', 'e', 't', 'h', 'o', 'd'] ++ '\x7d' :: t) := by
          simp [phMethod]
        have hf := phFrom_shape ['m', 'e', 't', 'h', 'o', 'd'] t (by simp) (by decide)
        rw [he, hasPlaceholder_cons, hf]
        simp
    · rw [hasPlaceholder_cons, ih h1]
      simp

theorem splitAtFirst_of_notin {sep : Char} {s : Str} (h : sep ∉ s) :
    splitAtFirst sep s = (s, none) := by
  induction s with
  | nil => rfl
  | cons c rest ih =>
    have hc : ¬ c = sep := by
      intro he
      subst he
      exact h (List.mem_cons_self c rest)
    simp [splitAtFirst, hc, ih (fun hm => h (List.mem_cons_of_mem c hm))]

theorem splitAtFirst_append {sep : Char} (xs ys : Str) (h : sep ∉ xs) :
    splitAtFirst sep (xs ++ sep :: ys) = (xs, some ys) := by
  induction xs with
  | nil => simp [splitAtFirst]
  | cons c rest ih =>
    have hc : ¬ c = sep := by
      intro he
      subst he
      exact h (List.mem_cons_self c rest)
    simp [splitAtFirst, hc, ih (fun hm => h (List.mem_cons_of_mem c hm))]

theorem trimRightSlashes_shape (c : Char) (s : Str) :
    trimRightSlashes (c :: s) = [] ∨ trimRightSlashes (c :: s) = c :: trimRightSlashes s := by
  rw [trimRightSlashes]
  split
  · exact Or.inl rfl
  · exact Or.inr rfl

theorem parsePattern_plain {p : Str} (hne : p ≠ []) (hc : ':' ∉ p) (ha : '@' ∉ p) :
    parsePattern p = some ([], defaultMethod, p) := by
  simp [parsePattern, hne, splitAtFirst_of_notin ha, splitAtFirst_of_notin hc]

theorem serveHandlerKey_plain (p : Str) : serveHandlerKey [] p [] = p := by
  simp [serveHandlerKey]

theorem equalFold_rfl (s : Str) : equalFold s s = true := by
  simp [equalFold]

theorem contains_phStruct_false {pat : Str} (hph : hasPlaceholder pat = false) :
    containsSub phStruct pat = false := by
  cases hx : containsSub phStruct pat with
  | false => rfl
  | true =>
    rw [containsSub_placeholder (Or.inl rfl) hx] at hph
    exact absurd hph (by simp)

theorem contains_phMethod_false {pat : Str} (hph : hasPlaceholder pat = false) :
    containsSub phMethod pat = false := by
  cases hx : containsSub phMethod pat with
  | false => rfl
  | true =>
    rw [containsSub_placeholder (Or.inr rfl) hx] at hph
    exact absurd hph (by simp)

theorem merge_append_plain {pat sN mN : Str} (hph : hasPlaceholder pat = false)
    (ha : '@' ∉ pat) :
    mergeBuildInNameToPattern pat sN mN true = trimRightSlashes pat ++ '/' :: lower mN := by
  have hcs := contains_phStruct_false hph
  have hcm := contains_phMethod_false hph
  have h1 : replaceSub pat phStruct (lower sN) = pat := replaceSub_id _ hcs
  simp [mergeBuildInNameToPattern, nameToUri, h1, hcm, splitAtFirst_of_notin ha]

theorem merge_noappend_id {pat sN mN : Str} (hs : containsSub phStruct pat = false)
    (hm : containsSub phMethod pat = false) :
    mergeBuildInNameToPattern pat sN mN false = pat := by
  have h1 : replaceSub pat phStruct (lower sN) = pat := replaceSub_id _ hs
  simp [mergeBuildInNameToPattern, nameToUri, h1, hm]

theorem merge_append_shape {pat sN mN : Str} (hph : hasPlaceholder pat = false) :
    ∃ pre tail, mergeBuildInNameToPattern pat sN mN true = pre ++ (('/' :: lower mN) ++ tail) := by
  have hcs := contains_phStruct_false hph
  have hcm := contains_phMethod_false hph
  have h1 : replaceSub pat phStruct (lower sN) = pat := replaceSub_id _ hcs
  rcases hsp : splitAtFirst '@' pat with ⟨uri, dom⟩
  cases dom with
  | none =>
    refine ⟨trimRightSlashes uri, [], ?_⟩
    simp [mergeBuildInNameToPattern, nameToUri, h1, hcm, hsp]
  | some d =>
    refine ⟨trimRightSlashes uri, '@' :: d, ?_⟩
    simp [mergeBuildInNameToPattern, nameToUri, h1, hcm, hsp]

theorem lower_of_equalFold_index {mN : Str} (h : equalFold mN strIndex = true) :
    lower mN = ['i', 'n', 'd', 'e', 'x'] := by
  simp only [equalFold, decide_eq_true_eq] at h
  rw [h]
  decide

/-! ## Lemmas about the whole-object enumeration loop -/

theorem multiObjectStep_routes_mono (pat sN : Str) (mm : Option (List Str)) (obj : Object)
    (st : LoopSt) (m : GoMethod) {r : Str × DispatchFn} (h : r ∈ st.routes) :
    r ∈ (multiObjectStep pat sN mm obj st m).routes := by
  unfold multiObjectStep
  repeat' split
  all_goals try (rcases hpos : posRI (mergeBuildInNameToPattern pat sN m.name true) strSlashIndex
    with _ | p <;> simp only [hpos])
  all_goals simp_all [List.mem_append]

theorem multiObjectStep_diags_mono (pat sN : Str) (mm : Option (List Str)) (obj : Object)
    (st : LoopSt) (m : GoMethod) {d : Diag} (h : d ∈ st.diags) :
    d ∈ (multiObjectStep pat sN mm obj st m).diags := by
  unfold multiObjectStep
  repeat' split
  all_goals try (rcases hpos : posRI (mergeBuildInNameToPattern pat sN m.name true) strSlashIndex
    with _ | p <;> simp only [hpos])
  all_goals simp_all [List.mem_append]

theorem posRI_merge_isSome {pat sN mName : Str} (heq : equalFold mName strIndex = true)
    (hph : hasPlaceholder pat = false) :
    (posRI (mergeBuildInNameToPattern pat sN mName true) strSlashIndex).isSome = true := by
  obtain ⟨pre, tail, hkey⟩ := @merge_append_shape pat sN mName hph
  rw [lower_of_equalFold_index heq] at hkey
  have hocc : occursAtCI (mergeBuildInNameToPattern pat sN mName true) strSlashIndex
      pre.length = true := by
    rw [hkey]
    exact occursAtCI_mid pre strSlashIndex tail
  exact posRI_isSome (by decide) hocc

theorem multiObjectStep_panicked (pat sN : Str) (mm : Option (List Str)) (t : StructType)
    (a : Nat) (st : LoopSt) (m : GoMethod) :
    (multiObjectStep pat sN mm (Object.ptr t a) st m).panicked = st.panicked := by
  unfold multiObjectStep
  split
  · rfl
  split
  · rfl
  split
  · rfl
  split
  · rfl
  split
  next hfn =>
    exfalso
    simp [callMultiObjectMethods, typeElemName] at hfn
  next fn hfn =>
    split
    next hidx =>
      obtain ⟨heq, hphn⟩ := hidx
      have hph : hasPlaceholder pat = false := by simpa using hphn
      have hsome := @posRI_merge_isSome pat sN m.name heq hph
      rcases hpos : posRI (mergeBuildInNameToPattern pat sN m.name true) strSlashIndex with _ | p
      · rw [hpos] at hsome
        simp at hsome
      · simp [hpos]
    next => rfl

theorem multiObject_foldl_routes_mono (pat sN : Str) (mm : Option (List Str)) (obj : Object)
    (ms : List GoMethod) :
    ∀ (st : LoopSt) (r : Str × DispatchFn), r ∈ st.routes →
      r ∈ (ms.foldl (multiObjectStep pat sN mm obj) st).routes := by
  induction ms with
  | nil => intro st r h; exact h
  | cons m ms ih =>
    intro st r h
    exact ih _ r (multiObjectStep_routes_mono pat sN mm obj st m h)

theorem multiObject_foldl_diags_mono (pat sN : Str) (mm : Option (List Str)) (obj : Object)
    (ms : List GoMethod) :
    ∀ (st : LoopSt) (d : Diag), d ∈ st.diags →
      d ∈ (ms.foldl (multiObjectStep pat sN mm obj) st).diags := by
  induction ms with
  | nil => intro st d h; exact h
  | cons m ms ih =>
    intro st d h
    exact ih _ d (multiObjectStep_diags_mono pat sN mm obj st m h)

theorem multiObject_foldl_panicked (pat sN : Str) (mm : Option (List Str)) (t : StructType)
    (a : Nat) (ms : List GoMethod) :
    ∀ st : LoopSt,
      (ms.foldl (multiObjectStep pat sN mm (Object.ptr t a)) st).panicked = st.panicked := by
  induction ms with
  | nil => intro st; rfl
  | cons m ms ih =>
    intro st
    rw [List.foldl_cons, ih, multiObjectStep_panicked]

theorem multiObjectStep_adds_route (pat sN : Str) (mm : Option (List Str)) (t : StructType)
    (a : Nat) (st : LoopSt) (m : GoMethod)
    (hp : st.panicked = false)
    (hf : (match mm with | some l => decide (m.name ∉ l) | none => false) = false)
    (hi : ¬ (m.name = strInit ∨ m.name = strShut))
    (hh : m.sig = Sig.handler) :
    (mergeBuildInNameToPattern pat sN m.name true,
      (⟨t.name, Object.ptr t a, m.name⟩ : DispatchFn))
      ∈ (multiObjectStep pat sN mm (Object.ptr t a) st m).routes := by
  unfold multiObjectStep
  rw [if_neg (by simp [hp]), if_neg (by cases mm <;> simp_all), if_neg hi,
    if_neg (by simp [hh])]
  have hc : callMultiObjectMethods (Object.ptr t a) m.name
      = some ⟨t.name, Object.ptr t a, m.name⟩ := rfl
  simp only [hc]
  split
  next hidx =>
    obtain ⟨heq, hphn⟩ := hidx
    have hph : hasPlaceholder pat = false := by simpa using hphn
    have hsome := @posRI_merge_isSome pat sN m.name heq hph
    rcases hpos : posRI (mergeBuildInNameToPattern pat sN m.name true) strSlashIndex with _ | p
    · rw [hpos] at hsome
      simp at hsome
    · simp [hpos, List.mem_append]
  next => simp [List.mem_append]

theorem multiObjectStep_adds_index (pat sN : Str) (t : StructType) (a : Nat)
    (st : LoopSt) (m : GoMethod)
    (hp : st.panicked = false)
    (hname : m.name = strIndex) (hh : m.sig = Sig.handler)
    (hph : hasPlaceholder pat = false) (ha : '@' ∉ pat) (hs : ∃ s, pat = '/' :: s) :
    (trimRightSlashes pat ++ strSlashIndex,
        (⟨t.name, Object.ptr t a, m.name⟩ : DispatchFn))
      ∈ (multiObjectStep pat sN none (Object.ptr t a) st m).routes ∧
    ((if trimRightSlashes pat = [] then ['/'] else trimRightSlashes pat),
        (⟨t.name, Object.ptr t a, m.name⟩ : DispatchFn))
      ∈ (multiObjectStep pat sN none (Object.ptr t a) st m).routes := by
  have hkey : mergeBuildInNameToPattern pat sN m.name true
      = trimRightSlashes pat ++ strSlashIndex := by
    rw [hname, merge_append_plain hph ha]
    have hli : lower strIndex = ['i', 'n', 'd', 'e', 'x'] := by decide
    rw [hli]
    rfl
  have hpos : posRI (mergeBuildInNameToPattern pat sN m.name true) strSlashIndex
      = some (trimRightSlashes pat).length := by
    rw [hkey]
    exact posRI_trailing _ _ (by decide)
  have htake : (trimRightSlashes pat ++ strSlashIndex).take (trimRightSlashes pat).length
      = trimRightSlashes pat := List.take_left _ _
  have hdrop : (trimRightSlashes pat ++ strSlashIndex).drop ((trimRightSlashes pat).length + 6)
      = [] := by
    apply List.drop_eq_nil_of_le
    simp [strSlashIndex]
  obtain ⟨s, hps⟩ := hs
  have htrim : trimRightSlashes pat = [] ∨ ∃ r, trimRightSlashes pat = '/' :: r := by
    rw [hps]
    rcases trimRightSlashes_shape '/' s with h | h
    · exact Or.inl h
    · exact Or.inr ⟨_, h⟩
  unfold multiObjectStep
  rw [if_neg (by simp [hp]), if_neg (by simp), if_neg (by rw [hname]; decide),
    if_neg (by simp [hh])]
  have hc : callMultiObjectMethods (Object.ptr t a) m.name
      = some ⟨t.name, Object.ptr t a, m.name⟩ := rfl
  simp only [hc]
  rw [if_pos ⟨by rw [hname]; exact equalFold_rfl _, by simp [hph]⟩]
  rw [hpos, hkey]
  simp only [htake, hdrop, List.append_nil]
  rcases htrim with he | ⟨r, he⟩
  · rw [he]
    simp
  · rw [he]
    have hcond : ¬ (('/' :: r : Str) = [] ∨ (('/' :: r : Str)).headD 'x' = '@') := by
      simp
    rw [if_neg hcond]
    simp

theorem callMultiObjectMethods_methodName {obj : Object} {name : Str} {fn : DispatchFn}
    (h : callMultiObjectMethods obj name = some fn) :
    fn.methodName = name ∧ fn.object = obj := by
  cases obj with
  | ptr t a =>
    have hc : callMultiObjectMethods (Object.ptr t a) name
        = some ⟨t.name, Object.ptr t a, name⟩ := rfl
    rw [hc] at h
    injection h with h2
    rw [← h2]
    exact ⟨rfl, rfl⟩
  | structVal t =>
    exact absurd h (by simp [callMultiObjectMethods, typeElemName])

theorem multiObjectStep_routes_src {pat sN : Str} {mm : Option (List Str)} {obj : Object}
    {st : LoopSt} {m : GoMethod} {r : Str × DispatchFn}
    (h : r ∈ (multiObjectStep pat sN mm obj st m).routes) :
    r ∈ st.routes ∨ (r.2.methodName = m.name ∧ m.sig = Sig.handler) := by
  unfold multiObjectStep at h
  split at h
  · exact Or.inl h
  split at h
  · exact Or.inl h
  split at h
  · exact Or.inl h
  split at h
  · exact Or.inl h
  next hsig0 =>
  have hsig : m.sig = Sig.handler := not_ne_iff.mp hsig0
  split at h
  next hfn => exact Or.inl h
  next fn hfn =>
    have hmn := (callMultiObjectMethods_methodName hfn).1
    split at h
    next hidx =>
      rcases hpos : posRI (mergeBuildInNameToPattern pat sN m.name true) strSlashIndex with _ | p
      · simp only [hpos] at h
        rcases List.mem_append.mp h with h1 | h1
        · exact Or.inl h1
        · right
          simp only [List.mem_singleton] at h1
          rw [h1]
          exact ⟨hmn, hsig⟩
      · simp only [hpos] at h
        rcases List.mem_append.mp h with h1 | h1
        · rcases List.mem_append.mp h1 with h2 | h2
          · exact Or.inl h2
          · right
            simp only [List.mem_singleton] at h2
            rw [h2]
            exact ⟨hmn, hsig⟩
        · right
          simp only [List.mem_singleton] at h1
          rw [h1]
          exact ⟨hmn, hsig⟩
    next =>
      rcases List.mem_append.mp h with h1 | h1
      · exact Or.inl h1
      · right
        simp only [List.mem_singleton] at h1
        rw [h1]
        exact ⟨hmn, hsig⟩

theorem multiObject_foldl_routes_src (pat sN : Str) (mm : Option (List Str)) (obj : Object)
    (ms : List GoMethod) :
    ∀ (st : LoopSt) (r : Str × DispatchFn), r ∈ (ms.foldl (multiObjectStep pat sN mm obj) st).routes →
      r ∈ st.routes ∨ ∃ m ∈ ms, r.2.methodName = m.name ∧ m.sig = Sig.handler := by
  induction ms with
  | nil => intro st r h; exact Or.inl h
  | cons m ms ih =>
    intro st r h
    rcases ih _ r h with h1 | ⟨m2, hm2, hp2⟩
    · rcases multiObjectStep_routes_src h1 with h2 | h2
      · exact Or.inl h2
      · exact Or.inr ⟨m, List.mem_cons_self m ms, h2⟩
    · exact Or.inr ⟨m2, List.mem_cons_of_mem m hm2, hp2⟩

theorem multiObjectStep_diags_src {pat sN : Str} {mm : Option (List Str)} {obj : Object}
    {st : LoopSt} {m : GoMethod} {d : Diag}
    (h : d ∈ (multiObjectStep pat sN mm obj st m).diags) :
    d ∈ st.diags ∨ d = ⟨mismatchLevel mm, m.name⟩ := by
  unfold multiObjectStep at h
  split at h
  · exact Or.inl h
  split at h
  · exact Or.inl h
  split at h
  · exact Or.inl h
  split at h
  next =>
    rcases List.mem_append.mp h with h1 | h1
    · exact Or.inl h1
    · simp only [List.mem_singleton] at h1
      exact Or.inr h1
  split at h
  next => exact Or.inl h
  next fn hfn =>
    split at h
    next =>
      rcases hpos : posRI (mergeBuildInNameToPattern pat sN m.name true) strSlashIndex with _ | p
      · simp only [hpos] at h
        exact Or.inl h
      · simp only [hpos] at h
        exact Or.inl h
    next => exact Or.inl h

theorem multiObject_foldl_diags_src (pat sN : Str) (mm : Option (List Str)) (obj : Object)
    (ms : List GoMethod) :
    ∀ (st : LoopSt) (d : Diag), d ∈ (ms.foldl (multiObjectStep pat sN mm obj) st).diags →
      d ∈ st.diags ∨ ∃ m ∈ ms, d = ⟨mismatchLevel mm, m.name⟩ := by
  induction ms with
  | nil => intro st d h; exact Or.inl h
  | cons m ms ih =>
    intro st d h
    rcases ih _ d h with h1 | ⟨m2, hm2, hp2⟩
    · rcases multiObjectStep_diags_src h1 with h2 | h2
      · exact Or.inl h2
      · exact Or.inr ⟨m, List.mem_cons_self m ms, h2⟩
    · exact Or.inr ⟨m2, List.mem_cons_of_mem m hm2, hp2⟩

theorem multiObjectStep_adds_diag (pat sN : Str) (mm : Option (List Str)) (obj : Object)
    (st : LoopSt) (m : GoMethod)
    (hp : st.panicked = false)
    (hf : (match mm with | some l => decide (m.name ∉ l) | none => false) = false)
    (hi : ¬ (m.name = strInit ∨ m.name = strShut))
    (hns : m.sig = Sig.other) :
    (⟨mismatchLevel mm, m.name⟩ : Diag) ∈ (multiObjectStep pat sN mm obj st m).diags := by
  unfold multiObjectStep
  rw [if_neg (by simp [hp]), if_neg (by cases mm <;> simp_all), if_neg hi,
    if_pos (by simp [hns])]
  simp

theorem multiObject_foldl_adds_route (pat sN : Str) (mm : Option (List Str)) (t : StructType)
    (a : Nat) (ms : List GoMethod) (m : GoMethod) (hm : m ∈ ms) (st : LoopSt)
    (hp : st.panicked = false)
    (hf : (match mm with | some l => decide (m.name ∉ l) | none => false) = false)
    (hi : ¬ (m.name = strInit ∨ m.name = strShut))
    (hh : m.sig = Sig.handler) :
    (mergeBuildInNameToPattern pat sN m.name true,
      (⟨t.name, Object.ptr t a, m.name⟩ : DispatchFn))
      ∈ (ms.foldl (multiObjectStep pat sN mm (Object.ptr t a)) st).routes := by
  obtain ⟨xs, ys, rfl⟩ := List.append_of_mem hm
  rw [List.foldl_append, List.foldl_cons]
  apply multiObject_foldl_routes_mono
  apply multiObjectStep_adds_route pat sN mm t a _ m _ hf hi hh
  rw [multiObject_foldl_panicked]
  exact hp

theorem multiObject_foldl_adds_diag (pat sN : Str) (mm : Option (List Str)) (t : StructType)
    (a : Nat) (ms : List GoMethod) (m : GoMethod) (hm : m ∈ ms) (st : LoopSt)
    (hp : st.panicked = false)
    (hf : (match mm with | some l => decide (m.name ∉ l) | none => false) = false)
    (hi : ¬ (m.name = strInit ∨ m.name = strShut))
    (hns : m.sig = Sig.other) :
    (⟨mismatchLevel mm, m.name⟩ : Diag)
      ∈ (ms.foldl (multiObjectStep pat sN mm (Object.ptr t a)) st).diags := by
  obtain ⟨xs, ys, rfl⟩ := List.append_of_mem hm
  rw [List.foldl_append, List.foldl_cons]
  apply multiObject_foldl_diags_mono
  apply multiObjectStep_adds_diag pat sN mm _ _ m _ hf hi hns
  rw [multiObject_foldl_panicked]
  exact hp

theorem multiObject_foldl_adds_index (pat sN : Str) (t : StructType) (a : Nat)
    (ms : List GoMethod) (m : GoMethod) (hm : m ∈ ms) (st : LoopSt)
    (hp : st.panicked = false)
    (hname : m.name = strIndex) (hh : m.sig = Sig.handler)
    (hph : hasPlaceholder pat = false) (ha : '@' ∉ pat) (hs : ∃ s, pat = '/' :: s) :
    (trimRightSlashes pat ++ strSlashIndex,
        (⟨t.name, Object.ptr t a, m.name⟩ : DispatchFn))
      ∈ (ms.foldl (multiObjectStep pat sN none (Object.ptr t a)) st).routes ∧
    ((if trimRightSlashes pat = [] then ['/'] else trimRightSlashes pat),
        (⟨t.name, Object.ptr t a, m.name⟩ : DispatchFn))
      ∈ (ms.foldl (multiObjectStep pat sN none (Object.ptr t a)) st).routes := by
  obtain ⟨xs, ys, rfl⟩ := List.append_of_mem hm
  rw [List.foldl_append, List.foldl_cons]
  have hp2 : (xs.foldl (multiObjectStep pat sN none (Object.ptr t a)) st).panicked = false := by
    rw [multiObject_foldl_panicked]
    exact hp
  obtain ⟨h1, h2⟩ := multiObjectStep_adds_index pat sN t a _ m hp2 hname hh hph ha hs
  exact ⟨multiObject_foldl_routes_mono _ _ _ _ _ _ _ h1,
    multiObject_foldl_routes_mono _ _ _ _ _ _ _ h2⟩

theorem multiObject_foldl_length_ph (pat sN : Str) (t : StructType) (a : Nat)
    (hph : hasPlaceholder pat = true) (ms : List GoMethod) :
    ∀ st : LoopSt, st.panicked = false →
      ((ms.foldl (multiObjectStep pat sN none (Object.ptr t a)) st).routes).length
        = st.routes.length
          + ms.countP (fun m =>
              decide (¬ (m.name = strInit ∨ m.name = strShut)) && decide (m.sig = Sig.handler)) := by
  induction ms with
  | nil => intro st _; simp
  | cons m ms ih =>
    intro st hp
    rw [List.foldl_cons]
    have hps : (multiObjectStep pat sN none (Object.ptr t a) st m).panicked = false := by
      rw [multiObjectStep_panicked]
      exact hp
    rw [ih _ hps, List.countP_cons]
    by_cases hq : ¬ (m.name = strInit ∨ m.name = strShut) ∧ m.sig = Sig.handler
    · have hlen : (multiObjectStep pat sN none (Object.ptr t a) st m).routes.length
          = st.routes.length + 1 := by
        unfold multiObjectStep
        rw [if_neg (by simp [hp]), if_neg (by simp), if_neg hq.1, if_neg (by simp [hq.2])]
        have hc : callMultiObjectMethods (Object.ptr t a) m.name
            = some ⟨t.name, Object.ptr t a, m.name⟩ := rfl
        simp only [hc]
        rw [if_neg (by simp [hph])]
        simp
      rw [hlen]
      have hcond : (decide (¬ (m.name = strInit ∨ m.name = strShut))
          && decide (m.sig = Sig.handler)) = true := by
        simp [hq.1, hq.2]
      rw [hcond]
      have hone : (if (true : Bool) = true then 1 else 0) = 1 := by simp
      rw [hone]
      omega
    · have hlen : (multiObjectStep pat sN none (Object.ptr t a) st m).routes
          = st.routes := by
        unfold multiObjectStep
        rw [if_neg (by simp [hp]), if_neg (by simp)]
        by_cases hk : m.name = strInit ∨ m.name = strShut
        · rw [if_pos hk]
        · rw [if_neg hk]
          have hsg : m.sig ≠ Sig.handler := fun he => hq ⟨hk, he⟩
          rw [if_pos hsg]
      rw [hlen]
      have hcond : (decide (¬ (m.name = strInit ∨ m.name = strShut))
          && decide (m.sig = Sig.handler)) = false := by
        rcases Decidable.em (m.name = strInit ∨ m.name = strShut) with hk | hk
        · simp [hk]
        · have hsg : m.sig ≠ Sig.handler := fun he => hq ⟨hk, he⟩
          simp [hk, hsg]
      rw [hcond]
      simp

/-! ## Lemmas about the REST enumeration loop -/

theorem restStep_panicked (pat sN : Str) (t : StructType) (a : Nat)
    (st : LoopSt) (m : GoMethod) :
    (restStep pat sN (Object.ptr t a) st m).panicked = st.panicked := by
  unfold restStep
  split
  · rfl
  split
  · rfl
  split
  · rfl
  split
  next hfn =>
    exfalso
    simp [callMultiObjectMethods, typeElemName] at hfn
  next fn hfn => rfl

theorem rest_foldl_panicked (pat sN : Str) (t : StructType) (a : Nat) (ms : List GoMethod) :
    ∀ st : LoopSt,
      (ms.foldl (restStep pat sN (Object.ptr t a)) st).panicked = st.panicked := by
  induction ms with
  | nil => intro st; rfl
  | cons m ms ih =>
    intro st
    rw [List.foldl_cons, ih, restStep_panicked]

theorem restStep_routes_mono (pat sN : Str) (obj : Object) (st : LoopSt) (m : GoMethod)
    {r : Str × DispatchFn} (h : r ∈ st.routes) :
    r ∈ (restStep pat sN obj st m).routes := by
  unfold restStep
  repeat' split
  all_goals simp_all [List.mem_append]

theorem rest_foldl_routes_mono (pat sN : Str) (obj : Object) (ms : List GoMethod) :
    ∀ (st : LoopSt) (r : Str × DispatchFn), r ∈ st.routes →
      r ∈ (ms.foldl (restStep pat sN obj) st).routes := by
  induction ms with
  | nil => intro st r h; exact h
  | cons m ms ih =>
    intro st r h
    exact ih _ r (restStep_routes_mono pat sN obj st m h)

theorem restStep_routes_src {pat sN : Str} {obj : Object} {st : LoopSt} {m : GoMethod}
    {r : Str × DispatchFn} (h : r ∈ (restStep pat sN obj st m).routes) :
    r ∈ st.routes ∨ (upper m.name ∈ httpVerbs ∧ m.sig = Sig.handler
      ∧ r.2.methodName = m.name
      ∧ r.1 = mergeBuildInNameToPattern (m.name ++ ':' :: pat) sN m.name false) := by
  unfold restStep at h
  split at h
  · exact Or.inl h
  split at h
  · exact Or.inl h
  next hverb =>
  have hv : upper m.name ∈ httpVerbs := not_not.mp hverb
  split at h
  · exact Or.inl h
  next hsig0 =>
  have hsig : m.sig = Sig.handler := not_ne_iff.mp hsig0
  split at h
  next => exact Or.inl h
  next fn hfn =>
    have hmn := (callMultiObjectMethods_methodName hfn).1
    rcases List.mem_append.mp h with h1 | h1
    · exact Or.inl h1
    · right
      simp only [List.mem_singleton] at h1
      rw [h1]
      exact ⟨hv, hsig, hmn, rfl⟩

theorem rest_foldl_routes_src (pat sN : Str) (obj : Object) (ms : List GoMethod) :
    ∀ (st : LoopSt) (r : Str × DispatchFn), r ∈ (ms.foldl (restStep pat sN obj) st).routes →
      r ∈ st.routes ∨ ∃ m ∈ ms, upper m.name ∈ httpVerbs ∧ m.sig = Sig.handler
        ∧ r.2.methodName = m.name
        ∧ r.1 = mergeBuildInNameToPattern (m.name ++ ':' :: pat) sN m.name false := by
  induction ms with
  | nil => intro st r h; exact Or.inl h
  | cons m ms ih =>
    intro st r h
    rcases ih _ r h with h1 | ⟨m2, hm2, hp2⟩
    · rcases restStep_routes_src h1 with h2 | h2
      · exact Or.inl h2
      · exact Or.inr ⟨m, List.mem_cons_self m ms, h2⟩
    · exact Or.inr ⟨m2, List.mem_cons_of_mem m hm2, hp2⟩

theorem restStep_diags_mono (pat sN : Str) (obj : Object) (st : LoopSt) (m : GoMethod)
    {d : Diag} (h : d ∈ st.diags) :
    d ∈ (restStep pat sN obj st m).diags := by
  unfold restStep
  repeat' split
  all_goals simp_all [List.mem_append]

theorem restStep_diags_src {pat sN : Str} {obj : Object} {st : LoopSt} {m : GoMethod}
    {d : Diag} (h : d ∈ (restStep pat sN obj st m).diags) :
    d ∈ st.diags ∨ (upper m.name ∈ httpVerbs ∧ m.sig = Sig.other
      ∧ d = ⟨DiagLevel.error, m.name⟩) := by
  unfold restStep at h
  split at h
  · exact Or.inl h
  split at h
  · exact Or.inl h
  next hverb =>
  have hv : upper m.name ∈ httpVerbs := not_not.mp hverb
  split at h
  next hsig0 =>
    have hsig : m.sig = Sig.other := by
      cases hx : m.sig with
      | handler => exact absurd hx hsig0
      | other => rfl
    rcases List.mem_append.mp h with h1 | h1
    · exact Or.inl h1
    · right
      simp only [List.mem_singleton] at h1
      exact ⟨hv, hsig, h1⟩
  next =>
    split at h
    next => exact Or.inl h
    next fn hfn => exact Or.inl h

theorem rest_foldl_diags_src (pat sN : Str) (obj : Object) (ms : List GoMethod) :
    ∀ (st : LoopSt) (d : Diag), d ∈ (ms.foldl (restStep pat sN obj) st).diags →
      d ∈ st.diags ∨ ∃ m ∈ ms, upper m.name ∈ httpVerbs ∧ m.sig = Sig.other
        ∧ d = ⟨DiagLevel.error, m.name⟩ := by
  induction ms with
  | nil => intro st d h; exact Or.inl h
  | cons m ms ih =>
    intro st d h
    rcases ih _ d h with h1 | ⟨m2, hm2, hp2⟩
    · rcases restStep_diags_src h1 with h2 | h2
      · exact Or.inl h2
      · exact Or.inr ⟨m, List.mem_cons_self m ms, h2⟩
    · exact Or.inr ⟨m2, List.mem_cons_of_mem m hm2, hp2⟩

theorem restStep_adds_route (pat sN : Str) (t : StructType) (a : Nat) (st : LoopSt)
    (m : GoMethod) (hp : st.panicked = false)
    (hv : upper m.name ∈ httpVerbs) (hh : m.sig = Sig.handler) :
    (mergeBuildInNameToPattern (m.name ++ ':' :: pat) sN m.name false,
      (⟨t.name, Object.ptr t a, m.name⟩ : DispatchFn))
      ∈ (restStep pat sN (Object.ptr t a) st m).routes := by
  unfold restStep
  rw [if_neg (by simp [hp]), if_neg (by simp [hv]), if_neg (by simp [hh])]
  have hc : callMultiObjectMethods (Object.ptr t a) m.name
      = some ⟨t.name, Object.ptr t a, m.name⟩ := rfl
  simp only [hc]
  simp

theorem rest_foldl_adds_route (pat sN : Str) (t : StructType) (a : Nat)
    (ms : List GoMethod) (m : GoMethod) (hm : m ∈ ms) (st : LoopSt)
    (hp : st.panicked = false)
    (hv : upper m.name ∈ httpVerbs) (hh : m.sig = Sig.handler) :
    (mergeBuildInNameToPattern (m.name ++ ':' :: pat) sN m.name false,
      (⟨t.name, Object.ptr t a, m.name⟩ : DispatchFn))
      ∈ (ms.foldl (restStep pat sN (Object.ptr t a)) st).routes := by
  obtain ⟨xs, ys, rfl⟩ := List.append_of_mem hm
  rw [List.foldl_append, List.foldl_cons]
  apply rest_foldl_routes_mono
  apply restStep_adds_route pat sN t a _ m _ hv hh
  rw [rest_foldl_panicked]
  exact hp

/-! ## Verb names contain no route metacharacters -/

theorem verb_no_brace {name : Str} (hv : upper name ∈ httpVerbs) : '\x7b' ∉ name := by
  intro hmem
  have hup : Char.toUpper '\x7b' ∈ upper name := List.mem_map_of_mem _ hmem
  rw [show Char.toUpper '\x7b' = '\x7b' from by decide] at hup
  simp only [httpVerbs, List.mem_cons, List.not_mem_nil, or_false] at hv
  rcases hv with h | h | h | h | h | h | h | h | h <;>
    (rw [h] at hup; exact absurd hup (by decide))

theorem merge_rest_key {pat name sN : Str} (hph : hasPlaceholder pat = false)
    (hbr : '\x7b' ∉ name) :
    mergeBuildInNameToPattern (name ++ ':' :: pat) sN name false = name ++ ':' :: pat := by
  have hsplit : (name ++ ':' :: pat) = (name ++ [':']) ++ pat := by simp
  have hnotin : '\x7b' ∉ name ++ [':'] := by
    intro hmem
    rcases List.mem_append.mp hmem with h1 | h1
    · exact hbr h1
    · simp only [List.mem_singleton] at h1
      exact absurd h1 (by decide)
  apply merge_noappend_id
  · cases hx : containsSub phStruct (name ++ ':' :: pat) with
    | false => rfl
    | true =>
      exfalso
      rw [show phStruct = '\x7b' :: ['.', 's', 't', 'r', 'u', 'c', 't', '\x7d'] from rfl,
        hsplit] at hx
      have hx2 := containsSub_right_of_head_notin hx hnotin
      rw [show ('\x7b' :: ['.', 's', 't', 'r', 'u', 'c', 't', '\x7d'] : Str) = phStruct
        from rfl] at hx2
      rw [contains_phStruct_false hph] at hx2
      exact absurd hx2 (by simp)
  · cases hx : containsSub phMethod (name ++ ':' :: pat) with
    | false => rfl
    | true =>
      exfalso
      rw [show phMethod = '\x7b' :: ['.', 'm', 'e', 't', 'h', 'o', 'd', '\x7d'] from rfl,
        hsplit] at hx
      have hx2 := containsSub_right_of_head_notin hx hnotin
      rw [show ('\x7b' :: ['.', 'm', 'e', 't', 'h', 'o', 'd', '\x7d'] : Str) = phMethod
        from rfl] at hx2
      rw [contains_phMethod_false hph] at hx2
      exact absurd hx2 (by simp)

/-! ## Lemmas about the pool, the factory and the dispatch closure -/

theorem regSet_nil (n : Str) (p : PoolSt) : regSet [] n p = [(n, p)] := by
  simp [regSet]

theorem regSet_single (n : Str) (p q : PoolSt) : regSet [(n, p)] n q = [(n, q)] := by
  simp [regSet]

theorem regFind_single (n : Str) (p : PoolSt) : regFind [(n, p)] n = some p := by
  simp [regFind]

theorem poolFactory_safe {obj : Object}
    (hInit : findMethod obj strInit = none ∨ findMethod obj strInit = some Sig.handler)
    (hShut : findMethod obj strShut = none ∨ findMethod obj strShut = some Sig.handler) :
    poolFactory obj = Except.ok ⟨cloneValue obj, [],
      decide (findMethod obj strInit = some Sig.handler),
      decide (findMethod obj strShut = some Sig.handler)⟩ := by
  have hcv : cloneValue obj = obj := by cases obj <;> rfl
  unfold poolFactory hookOf
  rcases hInit with h | h <;> rcases hShut with h2 | h2 <;> simp [hcv, h, h2]

theorem runPhases_cached {e : PooledEntry} {mn : Str} {b : Behavior}
    (hc : mn ∈ e.methodCache) :
    runPhases e mn b
      = ((if e.initHook then [Event.initCall] else []) ++ [Event.methodCall]
          ++ (if e.shutHook then [Event.shutCall] else []),
         (if e.initHook && b.initPanics then 1 else 0)
           + (if b.methodPanics then 1 else 0)
           + (if e.shutHook && b.shutPanics then 1 else 0),
         some e) := by
  unfold runPhases shutEvsOf shutFaultsOf niceCallFunc
  rw [if_pos hc]

theorem runPhases_lookup_handler {e : PooledEntry} {mn : Str} {b : Behavior}
    (hc : mn ∉ e.methodCache) (hf : findMethod e.rVal mn = some Sig.handler) :
    runPhases e mn b
      = ((if e.initHook then [Event.initCall] else []) ++ [Event.methodCall]
          ++ (if e.shutHook then [Event.shutCall] else []),
         (if e.initHook && b.initPanics then 1 else 0)
           + (if b.methodPanics then 1 else 0)
           + (if e.shutHook && b.shutPanics then 1 else 0),
         some { e with methodCache := e.methodCache ++ [mn] }) := by
  unfold runPhases shutEvsOf shutFaultsOf niceCallFunc
  rw [if_neg hc, hf]

theorem dispatchClosure_idle {fn : DispatchFn} {b : Behavior} {reg : Registry}
    {fobj : Object} {e : PooledEntry} {rest : List PooledEntry}
    (hreg : regFind reg fn.structName = some ⟨fobj, e :: rest⟩) :
    dispatchClosure fn b reg
      = (match runPhases e fn.methodName b with
         | (evs, fl, none) => ⟨[Event.borrow] ++ evs, fl, true,
             regSet reg fn.structName ⟨fobj, rest⟩⟩
         | (evs, fl, some e2) => ⟨[Event.borrow] ++ evs ++ [Event.put], fl, false,
             regSet reg fn.structName ⟨fobj, rest ++ [e2]⟩⟩) := by
  unfold dispatchClosure
  rw [hreg]
  rcases hrp : runPhases e fn.methodName b with ⟨evs, fl, e2q⟩
  cases e2q <;> simp [hrp]

theorem dispatchClosure_fresh {fn : DispatchFn} {b : Behavior} {reg : Registry}
    (hreg : regFind reg fn.structName = none) :
    dispatchClosure fn b reg
      = (match poolFactory fn.object with
         | .error _ => ⟨[], 0, true, regSet reg fn.structName ⟨fn.object, []⟩⟩
         | .ok e =>
           match runPhases e fn.methodName b with
           | (evs, fl, none) => ⟨[Event.borrow] ++ evs, fl, true,
               regSet (regSet reg fn.structName ⟨fn.object, []⟩) fn.structName ⟨fn.object, []⟩⟩
           | (evs, fl, some e2) => ⟨[Event.borrow] ++ evs ++ [Event.put], fl, false,
               regSet (regSet reg fn.structName ⟨fn.object, []⟩) fn.structName
                 ⟨fn.object, [e2]⟩⟩) := by
  unfold dispatchClosure
  rw [hreg]
  rcases hpf : poolFactory fn.object with s | e
  · simp [hpf, Except.map]
  · rcases hrp : runPhases e fn.methodName b with ⟨evs, fl, e2q⟩
    cases e2q <;> simp [hrp, hpf, Except.map]

/-- `x` strictly precedes `y` in the event list: every position holding `x`
is before every position holding `y`. -/
abbrev precedesIn (evs : List Event) (x y : Event) : Prop :=
  ∀ i, i < evs.length → ∀ j, j < evs.length →
    evs.getD i Event.borrow = x → evs.getD j Event.borrow = y → i < j

/-! ## Further support lemmas -/

theorem parsePattern_isSome {p : Str} (hne : p ≠ []) : (parsePattern p).isSome = true := by
  unfold parsePattern
  rw [if_neg hne]
  rcases hsp : splitAtFirst '@' p with ⟨rest, dom⟩
  simp only [hsp]
  rcases hsp2 : splitAtFirst ':' rest with ⟨x, y⟩
  simp only [hsp2]
  cases y <;> simp

theorem mismatchLevel_ne_fatal (mm : Option (List Str)) : mismatchLevel mm ≠ DiagLevel.fatal := by
  cases mm with
  | none => simp [mismatchLevel]
  | some l =>
    unfold mismatchLevel
    split
    all_goals first
      | (split <;> simp)
      | simp

theorem multiObjectStep_sticky (pat sN : Str) (mm : Option (List Str)) (obj : Object)
    (st : LoopSt) (m : GoMethod) (hp : st.panicked = true) :
    multiObjectStep pat sN mm obj st m = st := by
  unfold multiObjectStep
  rw [if_pos hp]

theorem multiObject_foldl_sticky (pat sN : Str) (mm : Option (List Str)) (obj : Object)
    (ms : List GoMethod) :
    ∀ st : LoopSt, st.panicked = true →
      (ms.foldl (multiObjectStep pat sN mm obj) st).panicked = true := by
  induction ms with
  | nil => intro st hp; exact hp
  | cons m ms ih =>
    intro st hp
    rw [List.foldl_cons, multiObjectStep_sticky _ _ _ _ _ _ hp]
    exact ih st hp

theorem multiObjectStep_structVal_panics (pat sN : Str) (t : StructType)
    (st : LoopSt) (m : GoMethod)
    (hi : ¬ (m.name = strInit ∨ m.name = strShut)) (hh : m.sig = Sig.handler) :
    (multiObjectStep pat sN none (Object.structVal t) st m).panicked = true := by
  by_cases hp : st.panicked = true
  · rw [multiObjectStep_sticky _ _ _ _ _ _ hp]
    exact hp
  · unfold multiObjectStep
    rw [if_neg hp, if_neg (by simp), if_neg hi, if_neg (by simp [hh])]
    have hc : callMultiObjectMethods (Object.structVal t) m.name = none := rfl
    simp [hc]

theorem multiObject_foldl_structVal_panics (pat sN : Str) (t : StructType)
    (ms : List GoMethod) (m : GoMethod) (hm : m ∈ ms)
    (hi : ¬ (m.name = strInit ∨ m.name = strShut)) (hh : m.sig = Sig.handler)
    (st : LoopSt) :
    (ms.foldl (multiObjectStep pat sN none (Object.structVal t)) st).panicked = true := by
  obtain ⟨xs, ys, rfl⟩ := List.append_of_mem hm
  rw [List.foldl_append, List.foldl_cons]
  apply multiObject_foldl_sticky
  exact multiObjectStep_structVal_panics pat sN t _ m hi hh

theorem restStep_sticky (pat sN : Str) (obj : Object) (st : LoopSt) (m : GoMethod)
    (hp : st.panicked = true) :
    restStep pat sN obj st m = st := by
  unfold restStep
  rw [if_pos hp]

theorem rest_foldl_sticky (pat sN : Str) (obj : Object) (ms : List GoMethod) :
    ∀ st : LoopSt, st.panicked = true →
      (ms.foldl (restStep pat sN obj) st).panicked = true := by
  induction ms with
  | nil => intro st hp; exact hp
  | cons m ms ih =>
    intro st hp
    rw [List.foldl_cons, restStep_sticky _ _ _ _ _ hp]
    exact ih st hp

theorem restStep_structVal_panics (pat sN : Str) (t : StructType)
    (st : LoopSt) (m : GoMethod)
    (hv : upper m.name ∈ httpVerbs) (hh : m.sig = Sig.handler) :
    (restStep pat sN (Object.structVal t) st m).panicked = true := by
  by_cases hp : st.panicked = true
  · rw [restStep_sticky _ _ _ _ _ hp]
    exact hp
  · unfold restStep
    rw [if_neg hp, if_neg (by simp [hv]), if_neg (by simp [hh])]
    have hc : callMultiObjectMethods (Object.structVal t) m.name = none := rfl
    simp [hc]

theorem rest_foldl_structVal_panics (pat sN : Str) (t : StructType)
    (ms : List GoMethod) (m : GoMethod) (hm : m ∈ ms)
    (hv : upper m.name ∈ httpVerbs) (hh : m.sig = Sig.handler)
    (st : LoopSt) :
    (ms.foldl (restStep pat sN (Object.structVal t)) st).panicked = true := by
  obtain ⟨xs, ys, rfl⟩ := List.append_of_mem hm
  rw [List.foldl_append, List.foldl_cons]
  apply rest_foldl_sticky
  exact restStep_structVal_panics pat sN t _ m hv hh

theorem doBindMultiObject_some (pattern mstr : Str) (obj : Object)
    {d mth p : Str} (hpp : parsePattern pattern = some (d, mth, p)) :
    doBindMultiObject pattern obj mstr
      = (let mm : Option (List Str) := methodMapOf mstr
         let pat := if equalFold mth defaultMethod then serveHandlerKey [] p d else pattern
         let st := (wrapIfStruct obj).typeOf.methods.foldl
             (multiObjectStep pat (wrapIfStruct obj).typeOf.name mm obj) ⟨[], [], false⟩
         if st.panicked then ⟨[], st.diags, false, true⟩
         else ⟨st.routes, st.diags, false, false⟩) := by
  unfold doBindMultiObject
  rw [hpp]

/-! ## The claims -/

/-- C1 (code bug): the claim says each `PooledEntry` owns a fresh value copy
of the prototype, so no two entries of the same pool alias the same
underlying instance state. The factory (source lines 86–88) copies the
prototype VALUE; for a pointer-bound object — the only kind that survives
registration, since a struct value panics the binding call — that value is
the pointer, so the entry's instance is the prototype's own cell: the factory
yields an entry whose `rVal` is `c1Obj` itself, a write through one
factory-made entry's instance is read through another's, and the pool built
by a dispatch holds an entry aliasing the prototype. -/
theorem C1_pool_entries_alias :
    poolFactory c1Obj = Except.ok ⟨c1Obj, [], false, false⟩
    ∧ readInstance (writeInstance (fun _ => 0) c1Obj 42) c1Obj = some 42
    ∧ regFind (dispatchClosure ⟨c1Type.name, c1Obj, helloName⟩ ⟨false, false, false⟩ []).registry
        c1Type.name
        = some ⟨c1Obj, [⟨c1Obj, [helloName], false, false⟩]⟩ := by
  refine ⟨rfl, by decide, by decide⟩

/-- C8 counterexample: the claim says a bound type whose `Init` exists with
a non-handler signature still gets its entry constructed without fault
(just without the hook). The factory's unchecked interface assertion
(source line 92) panics instead: entry construction fails. -/
theorem C8_counterexample :
    poolFactory (Object.ptr c8BadInit 3) = Except.error panicMsgInterface := rfl

/-- C8 (amended): the factory checks only the existence of `Init`/`Shut`
(`IsValid`), not their signatures. When each present hook method has the
handler signature, construction succeeds, the hooks are installed exactly
for the handler-signature methods and the method cache starts empty; but
when `Init` (or `Shut`) exists with any other signature, the unchecked
assertion `.(func(*Request))` panics and no entry is produced. -/
theorem C8_amended (t : StructType) (a : Nat) :
    ((findMethod (Object.ptr t a) strInit = none
        ∨ findMethod (Object.ptr t a) strInit = some Sig.handler) →
      (findMethod (Object.ptr t a) strShut = none
        ∨ findMethod (Object.ptr t a) strShut = some Sig.handler) →
      poolFactory (Object.ptr t a) = Except.ok ⟨Object.ptr t a, [],
        decide (findMethod (Object.ptr t a) strInit = some Sig.handler),
        decide (findMethod (Object.ptr t a) strShut = some Sig.handler)⟩)
    ∧ (findMethod (Object.ptr t a) strInit = some Sig.other →
        poolFactory (Object.ptr t a) = Except.error panicMsgInterface)
    ∧ (findMethod (Object.ptr t a) strShut = some Sig.other →
        findMethod (Object.ptr t a) strInit ≠ some Sig.other →
        poolFactory (Object.ptr t a) = Except.error panicMsgInterface) := by
  refine ⟨?_, ?_, ?_⟩
  · intro hI hS
    have h := poolFactory_safe hI hS
    simpa [cloneValue] using h
  · intro hI
    unfold poolFactory hookOf
    simp [cloneValue, hI]
  · intro hS hI
    unfold poolFactory hookOf
    rcases hx : findMethod (Object.ptr t a) strInit with _ | s
    · simp [cloneValue, hx, hS]
    · cases s with
      | handler => simp [cloneValue, hx, hS]
      | other => exact absurd hx hI

/-- Witness for C8: a type whose `Init` has the handler signature and whose
`Shut` is absent yields an entry with only the `Init` hook installed. -/
theorem C8_amended_witness :
    poolFactory (Object.ptr c8Safe 5) = Except.ok ⟨Object.ptr c8Safe 5, [],
      decide (findMethod (Object.ptr c8Safe 5) strInit = some Sig.handler),
      decide (findMethod (Object.ptr c8Safe 5) strShut = some Sig.handler)⟩ :=
  (C8_amended c8Safe 5).1 (Or.inr (by decide)) (Or.inl (by decide))

/-- C9 (code bug): the registry `serviceMultiObjectCache` is a plain Go map
with no synchronization; its per-request check-then-insert (source lines
79 and 99) is two separate unguarded steps. Under the interleaving in
which both requests perform the map read before either writes, both
observe a miss and both construct and insert a pool for the same type
name: the second insert silently replaces the first thread's pool. The
claim that a concurrency-safe map prevents this racing check-then-insert
is false of the code. -/
theorem C9_registry_race :
    (runSchedule [true, false, true, false] initialRaceState).t1.created = true
    ∧ (runSchedule [true, false, true, false] initialRaceState).t2.created = true
    ∧ (runSchedule [true, false, true, false] initialRaceState).reg = some 2 := by
  decide

/-- C10: passing a non-pointer struct value to any of the three binding
functions panics at registration time as soon as one method reaches
registration: the binding functions wrap the value in a pointer only for
their local enumeration but hand the original unwrapped `object` to
`callMultiObjectMethods`, which eagerly evaluates `t.Elem().Name()` —
a `reflect` panic on a non-pointer type. No route is registered. -/
theorem C10_structVal_binding_panics (t : StructType) (pattern name : Str) :
    ((∃ m ∈ t.methods, ¬ (m.name = strInit ∨ m.name = strShut) ∧ m.sig = Sig.handler) →
      pattern ≠ [] →
      (BindMultiObject pattern (Object.structVal t) []).panicked = true
      ∧ (BindMultiObject pattern (Object.structVal t) []).routes = [])
    ∧ (findMethod (wrapIfStruct (Object.structVal t)) (trimSpace name) = some Sig.handler →
      (BindMultiObjectMethod pattern (Object.structVal t) name).panicked = true
      ∧ (BindMultiObjectMethod pattern (Object.structVal t) name).routes = [])
    ∧ ((∃ m ∈ t.methods, upper m.name ∈ httpVerbs ∧ m.sig = Sig.handler) →
      (BindMultiObjectRest pattern (Object.structVal t)).panicked = true
      ∧ (BindMultiObjectRest pattern (Object.structVal t)).routes = []) := by
  refine ⟨?_, ?_, ?_⟩
  · rintro ⟨m, hm, hi, hh⟩ hne
    have hps := parsePattern_isSome hne
    rcases hpp : parsePattern pattern with _ | ⟨d, mth, p⟩
    · rw [hpp] at hps
      simp at hps
    · show (doBindMultiObject pattern (Object.structVal t) []).panicked = true
        ∧ (doBindMultiObject pattern (Object.structVal t) []).routes = []
      rw [doBindMultiObject_some pattern [] (Object.structVal t) hpp]
      have hfold := multiObject_foldl_structVal_panics
        (if equalFold mth defaultMethod then serveHandlerKey [] p d else pattern)
        (wrapIfStruct (Object.structVal t)).typeOf.name t
        ((wrapIfStruct (Object.structVal t)).typeOf.methods) m hm hi hh ⟨[], [], false⟩
      have hmm : methodMapOf [] = none := rfl
      simp [hmm, hfold]
  · intro hfm
    unfold BindMultiObjectMethod doBindMultiObjectMethod
    simp [hfm, callMultiObjectMethods, typeElemName]
  · rintro ⟨m, hm, hv, hh⟩
    unfold BindMultiObjectRest doBindMultiObjectRest
    have hfold := rest_foldl_structVal_panics pattern
      (wrapIfStruct (Object.structVal t)).typeOf.name t
      ((wrapIfStruct (Object.structVal t)).typeOf.methods) m hm hv hh ⟨[], [], false⟩
    simp [hfold]

/-- Witness for C10: a struct value with a conforming `Get` method panics
all three binding calls and registers nothing. -/
theorem C10_witness :
    (BindMultiObject ['/', 'w'] (Object.structVal c10Type) []).panicked = true
    ∧ (BindMultiObject ['/', 'w'] (Object.structVal c10Type) []).routes = []
    ∧ (BindMultiObjectMethod ['/', 'w'] (Object.structVal c10Type) ['G', 'e', 't']).panicked = true
    ∧ (BindMultiObjectMethod ['/', 'w'] (Object.structVal c10Type) ['G', 'e', 't']).routes = []
    ∧ (BindMultiObjectRest ['/', 'w'] (Object.structVal c10Type)).panicked = true
    ∧ (BindMultiObjectRest ['/', 'w'] (Object.structVal c10Type)).routes = [] := by
  obtain ⟨h1, h2, h3⟩ := C10_structVal_binding_panics c10Type ['/', 'w'] ['G', 'e', 't']
  obtain ⟨a1, a2⟩ := h1 ⟨⟨['G', 'e', 't'], Sig.handler⟩, by decide, by decide, rfl⟩ (by decide)
  obtain ⟨b1, b2⟩ := h2 (by decide)
  obtain ⟨d1, d2⟩ := h3 ⟨⟨['G', 'e', 't'], Sig.handler⟩, by decide, by decide, rfl⟩
  exact ⟨a1, a2, b1, b2, d1, d2⟩

/-- C3 counterexample: the claim says that in single-method mode a method
that exists but fails the signature check makes the whole binding call
fatal, like a missing method. On `Bad` (present, non-handler signature) the
call emits only an error-level diagnostic — `Logger().Errorf`, not
`Logger().Fatal` — and returns without registering; no fatal diagnostic is
produced and the process is not terminated. -/
theorem C3_counterexample :
    (BindMultiObjectMethod ['/', 't'] c3Obj badName).fatal = false
    ∧ (∀ d ∈ (BindMultiObjectMethod ['/', 't'] c3Obj badName).diags,
        d.level ≠ DiagLevel.fatal)
    ∧ (BindMultiObjectMethod ['/', 't'] c3Obj badName).diags
        = [⟨DiagLevel.error, badName⟩]
    ∧ (BindMultiObjectMethod ['/', 't'] c3Obj badName).routes = [] := by
  refine ⟨rfl, by decide, rfl, rfl⟩

/-- C3 (amended): in single-method mode a missing method is fatal at
registration time (`Logger().Fatal`, no route registered); a method that
exists with a non-handler signature aborts the call with an error-level
diagnostic — not a fatal one — and likewise registers no route. -/
theorem C3_amended (pattern : Str) (object : Object) (name : Str) :
    (findMethod (wrapIfStruct object) (trimSpace name) = none →
      (BindMultiObjectMethod pattern object name).fatal = true
      ∧ (BindMultiObjectMethod pattern object name).routes = []
      ∧ (BindMultiObjectMethod pattern object name).diags
          = [⟨DiagLevel.fatal, trimSpace name⟩])
    ∧ (findMethod (wrapIfStruct object) (trimSpace name) = some Sig.other →
      (BindMultiObjectMethod pattern object name).fatal = false
      ∧ (BindMultiObjectMethod pattern object name).routes = []
      ∧ (BindMultiObjectMethod pattern object name).diags
          = [⟨DiagLevel.error, trimSpace name⟩]) := by
  constructor
  · intro h
    unfold BindMultiObjectMethod doBindMultiObjectMethod
    simp [h]
  · intro h
    unfold BindMultiObjectMethod doBindMultiObjectMethod
    simp [h]

/-- Witness for C3: a missing method name is fatal and registers nothing. -/
theorem C3_amended_witness :
    (BindMultiObjectMethod ['/', 't'] c3Obj ['N', 'o', 'p', 'e']).fatal = true
    ∧ (BindMultiObjectMethod ['/', 't'] c3Obj ['N', 'o', 'p', 'e']).routes = []
    ∧ (BindMultiObjectMethod ['/', 't'] c3Obj ['N', 'o', 'p', 'e']).diags
        = [⟨DiagLevel.fatal, trimSpace ['N', 'o', 'p', 'e']⟩] :=
  (C3_amended ['/', 't'] c3Obj ['N', 'o', 'p', 'e']).1 (by decide)

theorem splitOn_comma_ne_nil (s : Str) : s.splitOn ',' ≠ [] := by
  have h := List.splitOnP_ne_nil (fun c => c == ',') s
  simpa [List.splitOn] using h

theorem doBindMultiObject_ptr (pattern mstr : Str) (t : StructType) (a : Nat)
    (hpt : pattern ≠ []) :
    ∃ pat : Str,
      doBindMultiObject pattern (Object.ptr t a) mstr
        = ⟨(t.methods.foldl
              (multiObjectStep pat t.name (methodMapOf mstr) (Object.ptr t a))
              ⟨[], [], false⟩).routes,
           (t.methods.foldl
              (multiObjectStep pat t.name (methodMapOf mstr) (Object.ptr t a))
              ⟨[], [], false⟩).diags,
           false, false⟩ := by
  have hps := parsePattern_isSome hpt
  rcases hpp : parsePattern pattern with _ | ⟨d, mth, p⟩
  · rw [hpp] at hps
    simp at hps
  · refine ⟨if equalFold mth defaultMethod then serveHandlerKey [] p d else pattern, ?_⟩
    rw [doBindMultiObject_some pattern mstr (Object.ptr t a) hpp]
    have hpan := multiObject_foldl_panicked
      (if equalFold mth defaultMethod then serveHandlerKey [] p d else pattern)
      t.name (methodMapOf mstr) t a t.methods ⟨[], [], false⟩
    have hw : wrapIfStruct (Object.ptr t a) = Object.ptr t a := rfl
    simp only [hw, Object.typeOf]
    simp [hpan]

/-- C4 counterexample: the claim says a signature mismatch on an explicitly
requested method produces a fatal-level diagnostic. Requesting both `Good`
and `Bad` by name emits only an error-level diagnostic for `Bad` — no
fatal-level diagnostic is produced — while `Good` is still registered and
no route for `Bad` exists. -/
theorem C4_counterexample :
    (∀ d ∈ (BindMultiObject ['/', 't'] c4Obj [goodName ++ ',' :: badName]).diags,
        d.level ≠ DiagLevel.fatal)
    ∧ (BindMultiObject ['/', 't'] c4Obj [goodName ++ ',' :: badName]).diags
        = [⟨DiagLevel.error, badName⟩]
    ∧ ((['/', 't', '/', 'g', 'o', 'o', 'd'],
        (⟨c4Type.name, c4Obj, goodName⟩ : DispatchFn))
        ∈ (BindMultiObject ['/', 't'] c4Obj [goodName ++ ',' :: badName]).routes)
    ∧ (∀ r ∈ (BindMultiObject ['/', 't'] c4Obj [goodName ++ ',' :: badName]).routes,
        r.2.methodName ≠ badName) := by
  refine ⟨by decide, by decide, by decide, by decide⟩

/-- C4 (amended): in whole-object mode a method failing the signature check
produces an error-level diagnostic (not fatal) when it was explicitly
requested in the caller's method filter, and a debug-level diagnostic when
encountered during an unrestricted scan; in both cases the method is not
registered, no fatal diagnostic is emitted, the enumeration is not aborted,
and every other qualifying method still gets registered. -/
theorem C4_amended (t : StructType) (a : Nat) (pattern filter : Str)
    (hpt : pattern ≠ [])
    (hnd : (t.methods.map (fun m => m.name)).Nodup)
    (bad : GoMethod) (hbad : bad ∈ t.methods) (hbsig : bad.sig = Sig.other)
    (hbhook : ¬ (bad.name = strInit ∨ bad.name = strShut)) :
    (filter ≠ [] → bad.name ∈ (filter.splitOn ',').map trimSpace →
      ((⟨DiagLevel.error, bad.name⟩ : Diag)
          ∈ (BindMultiObject pattern (Object.ptr t a) [filter]).diags
        ∧ (∀ d ∈ (BindMultiObject pattern (Object.ptr t a) [filter]).diags,
            d.level ≠ DiagLevel.fatal)
        ∧ (∀ r ∈ (BindMultiObject pattern (Object.ptr t a) [filter]).routes,
            r.2.methodName ≠ bad.name)
        ∧ (∀ good ∈ t.methods, good.name ∈ (filter.splitOn ',').map trimSpace →
            ¬ (good.name = strInit ∨ good.name = strShut) → good.sig = Sig.handler →
            ∃ r ∈ (BindMultiObject pattern (Object.ptr t a) [filter]).routes,
              r.2.methodName = good.name)))
    ∧ ((⟨DiagLevel.debug, bad.name⟩ : Diag)
          ∈ (BindMultiObject pattern (Object.ptr t a) []).diags
        ∧ (∀ d ∈ (BindMultiObject pattern (Object.ptr t a) []).diags,
            d.level ≠ DiagLevel.fatal)
        ∧ (∀ r ∈ (BindMultiObject pattern (Object.ptr t a) []).routes,
            r.2.methodName ≠ bad.name)
        ∧ (∀ good ∈ t.methods, ¬ (good.name = strInit ∨ good.name = strShut) →
            good.sig = Sig.handler →
            ∃ r ∈ (BindMultiObject pattern (Object.ptr t a) []).routes,
              r.2.methodName = good.name)) := by
  constructor
  · intro hfne hmem
    have hbm : BindMultiObject pattern (Object.ptr t a) [filter]
        = doBindMultiObject pattern (Object.ptr t a) filter := rfl
    obtain ⟨pat, hout⟩ := doBindMultiObject_ptr pattern filter t a hpt
    rw [hbm, hout]
    have hfl : 0 < filter.length := by
      cases filter with
      | nil => exact absurd rfl hfne
      | cons c r => simp
    have hmm : methodMapOf filter = some ((filter.splitOn ',').map trimSpace) := by
      unfold methodMapOf
      rw [if_pos hfl]
    have hlne : ((filter.splitOn ',').map trimSpace) ≠ [] := by
      intro h
      exact splitOn_comma_ne_nil filter (List.map_eq_nil_iff.mp h)
    have hpos := List.length_pos.mpr hlne
    have hlevel : mismatchLevel (methodMapOf filter) = DiagLevel.error := by
      rw [hmm]
      simp [mismatchLevel, hpos, hlne, splitOn_comma_ne_nil filter]
    refine ⟨?_, ?_, ?_, ?_⟩
    · have hd := multiObject_foldl_adds_diag pat t.name (methodMapOf filter) t a
        t.methods bad hbad ⟨[], [], false⟩ rfl
        (by rw [hmm]; simp [hmem]) hbhook hbsig
      rw [hlevel] at hd
      exact hd
    · intro d hd
      rcases multiObject_foldl_diags_src pat t.name (methodMapOf filter)
          (Object.ptr t a) t.methods _ d hd with h1 | ⟨m2, _, h2⟩
      · exact absurd h1 (by simp)
      · rw [h2]
        show mismatchLevel (methodMapOf filter) ≠ DiagLevel.fatal
        exact mismatchLevel_ne_fatal _
    · intro r hr hrn
      rcases multiObject_foldl_routes_src pat t.name (methodMapOf filter)
          (Object.ptr t a) t.methods _ r hr with h1 | ⟨m2, hm2, hmn, hms⟩
      · exact absurd h1 (by simp)
      · have hmb : m2 = bad := by
          apply List.inj_on_of_nodup_map hnd hm2 hbad
          rw [← hmn]
          exact hrn
        rw [hmb, hbsig] at hms
        exact absurd hms (by decide)
    · intro good hg hgf hghook hgsig
      refine ⟨(mergeBuildInNameToPattern pat t.name good.name true,
        ⟨t.name, Object.ptr t a, good.name⟩), ?_, rfl⟩
      exact multiObject_foldl_adds_route pat t.name (methodMapOf filter) t a
        t.methods good hg ⟨[], [], false⟩ rfl (by rw [hmm]; simp [hgf]) hghook hgsig
  · have hbm : BindMultiObject pattern (Object.ptr t a) []
        = doBindMultiObject pattern (Object.ptr t a) [] := rfl
    obtain ⟨pat, hout⟩ := doBindMultiObject_ptr pattern [] t a hpt
    rw [hbm, hout]
    have hmm : methodMapOf [] = none := rfl
    have hlevel : mismatchLevel (methodMapOf []) = DiagLevel.debug := rfl
    refine ⟨?_, ?_, ?_, ?_⟩
    · have hd := multiObject_foldl_adds_diag pat t.name (methodMapOf []) t a
        t.methods bad hbad ⟨[], [], false⟩ rfl (by rw [hmm]) hbhook hbsig
      rw [hlevel] at hd
      exact hd
    · intro d hd
      rcases multiObject_foldl_diags_src pat t.name (methodMapOf [])
          (Object.ptr t a) t.methods _ d hd with h1 | ⟨m2, _, h2⟩
      · exact absurd h1 (by simp)
      · rw [h2]
        show mismatchLevel (methodMapOf []) ≠ DiagLevel.fatal
        exact mismatchLevel_ne_fatal _
    · intro r hr hrn
      rcases multiObject_foldl_routes_src pat t.name (methodMapOf [])
          (Object.ptr t a) t.methods _ r hr with h1 | ⟨m2, hm2, hmn, hms⟩
      · exact absurd h1 (by simp)
      · have hmb : m2 = bad := by
          apply List.inj_on_of_nodup_map hnd hm2 hbad
          rw [← hmn]
          exact hrn
        rw [hmb, hbsig] at hms
        exact absurd hms (by decide)
    · intro good hg hghook hgsig
      refine ⟨(mergeBuildInNameToPattern pat t.name good.name true,
        ⟨t.name, Object.ptr t a, good.name⟩), ?_, rfl⟩
      exact multiObject_foldl_adds_route pat t.name (methodMapOf []) t a
        t.methods good hg ⟨[], [], false⟩ rfl (by rw [hmm]) hghook hgsig

/-- Witness for C4: the unrestricted-scan half at the concrete fixture. -/
theorem C4_amended_witness :
    (⟨DiagLevel.debug, (⟨badName, Sig.other⟩ : GoMethod).name⟩ : Diag)
        ∈ (BindMultiObject ['/', 't'] (Object.ptr c4Type 4) []).diags
    ∧ (∀ d ∈ (BindMultiObject ['/', 't'] (Object.ptr c4Type 4) []).diags,
        d.level ≠ DiagLevel.fatal)
    ∧ (∀ r ∈ (BindMultiObject ['/', 't'] (Object.ptr c4Type 4) []).routes,
        r.2.methodName ≠ (⟨badName, Sig.other⟩ : GoMethod).name)
    ∧ (∀ good ∈ c4Type.methods, ¬ (good.name = strInit ∨ good.name = strShut) →
        good.sig = Sig.handler →
        ∃ r ∈ (BindMultiObject ['/', 't'] (Object.ptr c4Type 4) []).routes,
          r.2.methodName = good.name) :=
  (C4_amended c4Type 4 ['/', 't'] [] (by decide) (by decide)
    ⟨badName, Sig.other⟩ (by decide) rfl (by decide)).2

/-- C5: in whole-object mode, when a method literally named `Index` is
bound and the original pattern has no built-in placeholder, the first key
is `trimRight(pattern, "/") + "/index"` and a second key — the first key
with its trailing `/index` segment stripped, or `/` when the strip leaves
nothing — is additionally registered with the same dispatch closure; when
the pattern does contain a placeholder, exactly one route per qualifying
method is registered, so no extra key is added. -/
theorem C5_index_alias (t : StructType) (a : Nat) (pattern : Str)
    (hs : ∃ s, pattern = '/' :: s)
    (hc : ':' ∉ pattern) (ha : '@' ∉ pattern)
    (mIdx : GoMethod) (hm : mIdx ∈ t.methods) (hname : mIdx.name = strIndex)
    (hsig : mIdx.sig = Sig.handler) :
    (hasPlaceholder pattern = false →
      (trimRightSlashes pattern ++ strSlashIndex,
        (⟨t.name, Object.ptr t a, mIdx.name⟩ : DispatchFn))
        ∈ (BindMultiObject pattern (Object.ptr t a) []).routes
      ∧ ((if trimRightSlashes pattern = [] then ['/'] else trimRightSlashes pattern),
        (⟨t.name, Object.ptr t a, mIdx.name⟩ : DispatchFn))
        ∈ (BindMultiObject pattern (Object.ptr t a) []).routes)
    ∧ (hasPlaceholder pattern = true →
      ((BindMultiObject pattern (Object.ptr t a) []).routes).length
        = t.methods.countP (fun m =>
            decide (¬ (m.name = strInit ∨ m.name = strShut))
              && decide (m.sig = Sig.handler))) := by
  have hne : pattern ≠ [] := by
    obtain ⟨s, rfl⟩ := hs
    simp
  have hpp := parsePattern_plain hne hc ha
  have hout : BindMultiObject pattern (Object.ptr t a) []
      = ⟨(t.methods.foldl (multiObjectStep pattern t.name none (Object.ptr t a))
            ⟨[], [], false⟩).routes,
         (t.methods.foldl (multiObjectStep pattern t.name none (Object.ptr t a))
            ⟨[], [], false⟩).diags,
         false, false⟩ := by
    show doBindMultiObject pattern (Object.ptr t a) [] = _
    rw [doBindMultiObject_some pattern [] (Object.ptr t a) hpp]
    have hpan := multiObject_foldl_panicked pattern t.name none t a t.methods ⟨[], [], false⟩
    have heq : equalFold defaultMethod defaultMethod = true := equalFold_rfl _
    have hserve : serveHandlerKey [] pattern [] = pattern := serveHandlerKey_plain pattern
    simp [heq, hserve, wrapIfStruct, Object.typeOf, methodMapOf, hpan]
  rw [hout]
  constructor
  · intro hph
    exact multiObject_foldl_adds_index pattern t.name t a t.methods mIdx hm
      ⟨[], [], false⟩ rfl hname hsig hph ha hs
  · intro hph
    have hlen := multiObject_foldl_length_ph pattern t.name t a hph t.methods
      ⟨[], [], false⟩ rfl
    simpa using hlen

/-- Witness for C5: binding an object with a conforming `Index` method at
`/user` registers both `/user/index` and `/user` with the same handler. -/
theorem C5_witness :
    (trimRightSlashes ['/', 'u', 's', 'e', 'r'] ++ strSlashIndex,
      (⟨c5Type.name, Object.ptr c5Type 3, strIndex⟩ : DispatchFn))
      ∈ (BindMultiObject ['/', 'u', 's', 'e', 'r'] (Object.ptr c5Type 3) []).routes
    ∧ ((if trimRightSlashes ['/', 'u', 's', 'e', 'r'] = []
        then ['/'] else trimRightSlashes ['/', 'u', 's', 'e', 'r']),
      (⟨c5Type.name, Object.ptr c5Type 3, strIndex⟩ : DispatchFn))
      ∈ (BindMultiObject ['/', 'u', 's', 'e', 'r'] (Object.ptr c5Type 3) []).routes :=
  (C5_index_alias c5Type 3 ['/', 'u', 's', 'e', 'r'] ⟨['u', 's', 'e', 'r'], rfl⟩
    (by decide) (by decide) ⟨strIndex, Sig.handler⟩ (by decide) rfl rfl).1 (by decide)

/-- C6: in REST mode exactly the methods whose upper-cased name is a
recognized HTTP verb are considered — every route and every diagnostic
concerns a verb-named method, so non-verb methods are skipped entirely
without any error even when conforming — and a registered verb-named
conforming method gets the key `Verb:pattern`: the verb is the key's
method component and the pattern is its path, with the method name not
merged into the path. -/
theorem C6_rest_verbs (t : StructType) (a : Nat) (pattern : Str)
    (hph : hasPlaceholder pattern = false) :
    (∀ r ∈ (BindMultiObjectRest pattern (Object.ptr t a)).routes,
        upper r.2.methodName ∈ httpVerbs)
    ∧ (∀ d ∈ (BindMultiObjectRest pattern (Object.ptr t a)).diags,
        upper d.method ∈ httpVerbs)
    ∧ (∀ m ∈ t.methods, upper m.name ∈ httpVerbs → m.sig = Sig.handler →
        (m.name ++ ':' :: pattern, (⟨t.name, Object.ptr t a, m.name⟩ : DispatchFn))
          ∈ (BindMultiObjectRest pattern (Object.ptr t a)).routes) := by
  have hout : BindMultiObjectRest pattern (Object.ptr t a)
      = ⟨(t.methods.foldl (restStep pattern t.name (Object.ptr t a)) ⟨[], [], false⟩).routes,
         (t.methods.foldl (restStep pattern t.name (Object.ptr t a)) ⟨[], [], false⟩).diags,
         false, false⟩ := by
    show doBindMultiObjectRest pattern (Object.ptr t a) = _
    unfold doBindMultiObjectRest
    have hpan := rest_foldl_panicked pattern t.name t a t.methods ⟨[], [], false⟩
    simp [wrapIfStruct, Object.typeOf, hpan]
  rw [hout]
  refine ⟨?_, ?_, ?_⟩
  · intro r hr
    rcases rest_foldl_routes_src pattern t.name (Object.ptr t a) t.methods _ r hr
      with h1 | ⟨m, _, hv, _, hmn, _⟩
    · exact absurd h1 (by simp)
    · rw [hmn]
      exact hv
  · intro d hd
    rcases rest_foldl_diags_src pattern t.name (Object.ptr t a) t.methods _ d hd
      with h1 | ⟨m, _, hv, _, hdm⟩
    · exact absurd h1 (by simp)
    · rw [hdm]
      exact hv
  · intro m hm hv hh
    have hmem := rest_foldl_adds_route pattern t.name t a t.methods m hm
      ⟨[], [], false⟩ rfl hv hh
    rw [merge_rest_key hph (verb_no_brace hv)] at hmem
    exact hmem

/-- Witness for C6: REST-binding the fixture registers `Get:/api` for the
verb-named conforming `Get`, and every registered route is verb-named. -/
theorem C6_witness :
    ((['G', 'e', 't'] ++ ':' :: ['/', 'a', 'p', 'i'],
      (⟨c6Type.name, Object.ptr c6Type 2, ['G', 'e', 't']⟩ : DispatchFn))
      ∈ (BindMultiObjectRest ['/', 'a', 'p', 'i'] (Object.ptr c6Type 2)).routes)
    ∧ (∀ r ∈ (BindMultiObjectRest ['/', 'a', 'p', 'i'] (Object.ptr c6Type 2)).routes,
        upper r.2.methodName ∈ httpVerbs) := by
  obtain ⟨h1, h2, h3⟩ := C6_rest_verbs c6Type 2 ['/', 'a', 'p', 'i'] (by decide)
  exact ⟨h3 ⟨['G', 'e', 't'], Sig.handler⟩ (by decide) (by decide) rfl, h1⟩

theorem C2_core (t : StructType) (a : Nat) (methodName : Str) (b b2 : Behavior)
    (ih sh : Bool)
    (hmeth : findMethod (Object.ptr t a) methodName = some Sig.handler)
    (hpf : poolFactory (Object.ptr t a) = Except.ok ⟨Object.ptr t a, [], ih, sh⟩) :
    (dispatchClosure ⟨t.name, Object.ptr t a, methodName⟩ b []).escaped = false
    ∧ (b.methodPanics = true →
        1 ≤ (dispatchClosure ⟨t.name, Object.ptr t a, methodName⟩ b []).faults)
    ∧ Event.methodCall ∈ (dispatchClosure ⟨t.name, Object.ptr t a, methodName⟩ b []).events
    ∧ (∃ e : PooledEntry,
        regFind (dispatchClosure ⟨t.name, Object.ptr t a, methodName⟩ b []).registry t.name
          = some ⟨Object.ptr t a, [e]⟩)
    ∧ (dispatchClosure ⟨t.name, Object.ptr t a, methodName⟩ b2
        (dispatchClosure ⟨t.name, Object.ptr t a, methodName⟩ b []).registry).escaped = false
    ∧ Event.methodCall ∈ (dispatchClosure ⟨t.name, Object.ptr t a, methodName⟩ b2
        (dispatchClosure ⟨t.name, Object.ptr t a, methodName⟩ b []).registry).events
    ∧ (∃ e : PooledEntry,
        regFind (dispatchClosure ⟨t.name, Object.ptr t a, methodName⟩ b2
          (dispatchClosure ⟨t.name, Object.ptr t a, methodName⟩ b []).registry).registry t.name
          = some ⟨Object.ptr t a, [e]⟩) := by
  have hfresh : regFind ([] : Registry)
      (⟨t.name, Object.ptr t a, methodName⟩ : DispatchFn).structName = none := rfl
  have hrp := @runPhases_lookup_handler ⟨Object.ptr t a, [], ih, sh⟩ methodName b
    (by simp) hmeth
  have hd1 : dispatchClosure ⟨t.name, Object.ptr t a, methodName⟩ b []
      = ⟨[Event.borrow] ++ ((if ih then [Event.initCall] else []) ++ [Event.methodCall]
            ++ (if sh then [Event.shutCall] else [])) ++ [Event.put],
         (if ih && b.initPanics then 1 else 0) + (if b.methodPanics then 1 else 0)
           + (if sh && b.shutPanics then 1 else 0),
         false,
         [(t.name, ⟨Object.ptr t a, [⟨Object.ptr t a, [methodName], ih, sh⟩]⟩)]⟩ := by
    rw [@dispatchClosure_fresh ⟨t.name, Object.ptr t a, methodName⟩ b [] hfresh]
    simp only [hpf, hrp, regSet_nil, regSet_single]
    simp
  rw [hd1]
  have hreg2 : regFind
      [(t.name, (⟨Object.ptr t a, [⟨Object.ptr t a, [methodName], ih, sh⟩]⟩ : PoolSt))]
      (⟨t.name, Object.ptr t a, methodName⟩ : DispatchFn).structName
      = some ⟨Object.ptr t a, ⟨Object.ptr t a, [methodName], ih, sh⟩ :: []⟩ :=
    regFind_single t.name _
  have hrp2 := @runPhases_cached ⟨Object.ptr t a, [methodName], ih, sh⟩ methodName b2
    (by simp)
  have hd2 : dispatchClosure ⟨t.name, Object.ptr t a, methodName⟩ b2
      [(t.name, ⟨Object.ptr t a, [⟨Object.ptr t a, [methodName], ih, sh⟩]⟩)]
      = ⟨[Event.borrow] ++ ((if ih then [Event.initCall] else []) ++ [Event.methodCall]
            ++ (if sh then [Event.shutCall] else [])) ++ [Event.put],
         (if ih && b2.initPanics then 1 else 0) + (if b2.methodPanics then 1 else 0)
           + (if sh && b2.shutPanics then 1 else 0),
         false,
         [(t.name, ⟨Object.ptr t a, [⟨Object.ptr t a, [methodName], ih, sh⟩]⟩)]⟩ := by
    rw [dispatchClosure_idle hreg2]
    simp only [hrp2, regSet_single]
    simp
  rw [hd2]
  refine ⟨rfl, ?_, by simp, ⟨⟨Object.ptr t a, [methodName], ih, sh⟩, regFind_single _ _⟩,
    rfl, by simp, ⟨⟨Object.ptr t a, [methodName], ih, sh⟩, regFind_single _ _⟩⟩
  intro hbm
  simp only [hbm]
  split_ifs <;> omega

/-- C2: a panic raised by the `Init` hook, the target method or the `Shut`
hook during dispatch is intercepted by the failure boundary (`niceCallFunc`,
modelled from the spec): the wrapper never lets it escape, the request
surfaces at least one server-side error when the method panics, the
borrowed entry is returned so the pool stays consistent (one idle entry),
and a subsequent request on the same route is served (its target method is
invoked again), whatever the panic behavior of either request's user code. -/
theorem C2_dispatch_fault_isolated (t : StructType) (a : Nat) (methodName : Str)
    (b b2 : Behavior)
    (hmeth : findMethod (Object.ptr t a) methodName = some Sig.handler)
    (hInit : findMethod (Object.ptr t a) strInit = none
      ∨ findMethod (Object.ptr t a) strInit = some Sig.handler)
    (hShut : findMethod (Object.ptr t a) strShut = none
      ∨ findMethod (Object.ptr t a) strShut = some Sig.handler) :
    (dispatchClosure ⟨t.name, Object.ptr t a, methodName⟩ b []).escaped = false
    ∧ (b.methodPanics = true →
        1 ≤ (dispatchClosure ⟨t.name, Object.ptr t a, methodName⟩ b []).faults)
    ∧ Event.methodCall ∈ (dispatchClosure ⟨t.name, Object.ptr t a, methodName⟩ b []).events
    ∧ (∃ e : PooledEntry,
        regFind (dispatchClosure ⟨t.name, Object.ptr t a, methodName⟩ b []).registry t.name
          = some ⟨Object.ptr t a, [e]⟩)
    ∧ (dispatchClosure ⟨t.name, Object.ptr t a, methodName⟩ b2
        (dispatchClosure ⟨t.name, Object.ptr t a, methodName⟩ b []).registry).escaped = false
    ∧ Event.methodCall ∈ (dispatchClosure ⟨t.name, Object.ptr t a, methodName⟩ b2
        (dispatchClosure ⟨t.name, Object.ptr t a, methodName⟩ b []).registry).events
    ∧ (∃ e : PooledEntry,
        regFind (dispatchClosure ⟨t.name, Object.ptr t a, methodName⟩ b2
          (dispatchClosure ⟨t.name, Object.ptr t a, methodName⟩ b []).registry).registry t.name
          = some ⟨Object.ptr t a, [e]⟩) := by
  have hpf := poolFactory_safe hInit hShut
  have hcl : cloneValue (Object.ptr t a) = Object.ptr t a := rfl
  rw [hcl] at hpf
  exact C2_core t a methodName b b2 _ _ hmeth hpf

/-- Witness for C2: a request whose handler method panics on the fixture
type with an `Init` hook is isolated, reports a fault, returns the entry,
and the next request is served. -/
theorem C2_witness :
    (dispatchClosure ⟨c2Type.name, Object.ptr c2Type 9, helloName⟩ ⟨false, true, false⟩ []).escaped
        = false
    ∧ ((⟨false, true, false⟩ : Behavior).methodPanics = true →
        1 ≤ (dispatchClosure ⟨c2Type.name, Object.ptr c2Type 9, helloName⟩
          ⟨false, true, false⟩ []).faults)
    ∧ Event.methodCall ∈ (dispatchClosure ⟨c2Type.name, Object.ptr c2Type 9, helloName⟩
        ⟨false, true, false⟩ []).events
    ∧ (∃ e : PooledEntry,
        regFind (dispatchClosure ⟨c2Type.name, Object.ptr c2Type 9, helloName⟩
          ⟨false, true, false⟩ []).registry c2Type.name
          = some ⟨Object.ptr c2Type 9, [e]⟩)
    ∧ (dispatchClosure ⟨c2Type.name, Object.ptr c2Type 9, helloName⟩ ⟨false, false, false⟩
        (dispatchClosure ⟨c2Type.name, Object.ptr c2Type 9, helloName⟩
          ⟨false, true, false⟩ []).registry).escaped = false
    ∧ Event.methodCall ∈ (dispatchClosure ⟨c2Type.name, Object.ptr c2Type 9, helloName⟩
        ⟨false, false, false⟩
        (dispatchClosure ⟨c2Type.name, Object.ptr c2Type 9, helloName⟩
          ⟨false, true, false⟩ []).registry).events
    ∧ (∃ e : PooledEntry,
        regFind (dispatchClosure ⟨c2Type.name, Object.ptr c2Type 9, helloName⟩
          ⟨false, false, false⟩
          (dispatchClosure ⟨c2Type.name, Object.ptr c2Type 9, helloName⟩
            ⟨false, true, false⟩ []).registry).registry c2Type.name
          = some ⟨Object.ptr c2Type 9, [e]⟩) :=
  C2_dispatch_fault_isolated c2Type 9 helloName ⟨false, true, false⟩ ⟨false, false, false⟩
    (by decide) (Or.inr (by decide)) (Or.inl (by decide))

/-- C7: within one invocation of the dispatch wrapper on a borrowed entry
whose target method resolves (cached, or present with the handler
signature): the `Init` hook, when installed, runs exactly once and strictly
before the single target-method invocation; the target method runs
strictly before the `Shut` hook, which, when installed, runs exactly once;
and `pool.Put` is the last event — the entry is returned to the pool only
after all three phases, whatever the panic behavior of the user code. -/
theorem C7_dispatch_ordering (fn : DispatchFn) (b : Behavior) (reg : Registry)
    (fobj : Object) (e : PooledEntry) (rest : List PooledEntry)
    (hreg : regFind reg fn.structName = some ⟨fobj, e :: rest⟩)
    (hres : fn.methodName ∈ e.methodCache
      ∨ findMethod e.rVal fn.methodName = some Sig.handler) :
    (dispatchClosure fn b reg).escaped = false
    ∧ (dispatchClosure fn b reg).events.count Event.initCall
        = (if e.initHook then 1 else 0)
    ∧ (dispatchClosure fn b reg).events.count Event.methodCall = 1
    ∧ (dispatchClosure fn b reg).events.count Event.shutCall
        = (if e.shutHook then 1 else 0)
    ∧ (dispatchClosure fn b reg).events.count Event.put = 1
    ∧ precedesIn (dispatchClosure fn b reg).events Event.initCall Event.methodCall
    ∧ precedesIn (dispatchClosure fn b reg).events Event.methodCall Event.shutCall
    ∧ (dispatchClosure fn b reg).events.getD
        ((dispatchClosure fn b reg).events.length - 1) Event.borrow = Event.put
    ∧ (∃ e2, (dispatchClosure fn b reg).registry
        = regSet reg fn.structName ⟨fobj, rest ++ [e2]⟩) := by
  obtain ⟨e2, hd⟩ : ∃ e2, dispatchClosure fn b reg
      = ⟨[Event.borrow] ++ ((if e.initHook then [Event.initCall] else [])
            ++ [Event.methodCall] ++ (if e.shutHook then [Event.shutCall] else []))
          ++ [Event.put],
         (if e.initHook && b.initPanics then 1 else 0)
           + (if b.methodPanics then 1 else 0)
           + (if e.shutHook && b.shutPanics then 1 else 0),
         false, regSet reg fn.structName ⟨fobj, rest ++ [e2]⟩⟩ := by
    rw [dispatchClosure_idle hreg]
    by_cases hcc : fn.methodName ∈ e.methodCache
    · refine ⟨e, ?_⟩
      rw [runPhases_cached hcc]
    · rcases hres with h | h
      · exact absurd h hcc
      · refine ⟨{ e with methodCache := e.methodCache ++ [fn.methodName] }, ?_⟩
        rw [runPhases_lookup_handler hcc h]
  rw [hd]
  refine ⟨rfl, ?_, ?_, ?_, ?_, ?_, ?_, ?_, ⟨e2, rfl⟩⟩
  all_goals cases hI : e.initHook <;> cases hS : e.shutHook <;> simp only [hI, hS] <;> decide

/-- Witness for C7: one dispatch on the fixture pool's idle entry (both
hooks installed) shows the ordering and the returned entry. -/
theorem C7_witness :
    (dispatchClosure ⟨c2Type.name, c2Obj, helloName⟩ ⟨false, false, false⟩ c7Reg).escaped = false
    ∧ (dispatchClosure ⟨c2Type.name, c2Obj, helloName⟩ ⟨false, false, false⟩
        c7Reg).events.count Event.initCall = (if c7Entry.initHook then 1 else 0)
    ∧ (dispatchClosure ⟨c2Type.name, c2Obj, helloName⟩ ⟨false, false, false⟩
        c7Reg).events.count Event.methodCall = 1
    ∧ (dispatchClosure ⟨c2Type.name, c2Obj, helloName⟩ ⟨false, false, false⟩
        c7Reg).events.count Event.shutCall = (if c7Entry.shutHook then 1 else 0)
    ∧ (dispatchClosure ⟨c2Type.name, c2Obj, helloName⟩ ⟨false, false, false⟩
        c7Reg).events.count Event.put = 1
    ∧ precedesIn (dispatchClosure ⟨c2Type.name, c2Obj, helloName⟩ ⟨false, false, false⟩
        c7Reg).events Event.initCall Event.methodCall
    ∧ precedesIn (dispatchClosure ⟨c2Type.name, c2Obj, helloName⟩ ⟨false, false, false⟩
        c7Reg).events Event.methodCall Event.shutCall
    ∧ (dispatchClosure ⟨c2Type.name, c2Obj, helloName⟩ ⟨false, false, false⟩
        c7Reg).events.getD
        ((dispatchClosure ⟨c2Type.name, c2Obj, helloName⟩ ⟨false, false, false⟩
          c7Reg).events.length - 1) Event.borrow = Event.put
    ∧ (∃ e2, (dispatchClosure ⟨c2Type.name, c2Obj, helloName⟩ ⟨false, false, false⟩
        c7Reg).registry
        = regSet c7Reg (⟨c2Type.name, c2Obj, helloName⟩ : DispatchFn).structName
            ⟨c2Obj, [] ++ [e2]⟩) :=
  C7_dispatch_ordering ⟨c2Type.name, c2Obj, helloName⟩ ⟨false, false, false⟩ c7Reg
    c2Obj c7Entry [] (by decide) (Or.inr (by decide))

end GhttpMultiObject
